import Mathlib

/-!
Verification development for the socialcrew-ai frontend.

The repository is a Next.js frontend.  The parts embedded here are:

* `parsePostsJson` (src/app/page.tsx) — the tolerant posts normalizer that
  reduces five JSON shapes to a canonical platform → posts map;
* the `runFlow` SSE client of the same file (message handler, error handler,
  `completedRef` latch, post-completion artifact fetching);
* the local-process close handler of the streaming route
  (src/app/api/run-backend/stream/route.ts) and its `.env` merge;
* the filename validation of src/app/api/file/[name]/route.ts;
* the hashtag tokenization of the `PostCard` component.

JavaScript runtime behaviour (truthiness, property access on `null` throwing
a TypeError, `Object.keys`, ASCII `toLowerCase`) is modelled explicitly.
Machine errors (thrown TypeErrors) are modelled with `Except Unit`; the
surrounding `try { ... } catch { return null }` maps them to `none`.
-/

namespace SocialCrew

/-- JSON values as produced by a successful `JSON.parse`.
Objects are ordered field lists (JS string-keyed insertion order);
`JSON.parse` never yields duplicate keys in one object. -/
inductive Json where
  | null : Json
  | bool (b : Bool) : Json
  | num (n : Int) : Json
  | str (s : String) : Json
  | arr (elems : List Json) : Json
  | obj (fields : List (String × Json)) : Json
deriving Repr, Inhabited

namespace Json

/-- Discriminator for the `null` value (property access on `null` throws). -/
def isNull : Json → Bool
  | .null => true
  | _ => false

/-- JS truthiness of a value. -/
def truthy : Json → Bool
  | .null => false
  | .bool b => b
  | .num n => n != 0
  | .str s => s != ""
  | .arr _ => true
  | .obj _ => true

/-- Model of `Array.isArray`. -/
def isArr : Json → Bool
  | .arr _ => true
  | _ => false

/-- Model of `typeof v === "object"` (true for `null`, arrays and plain objects). -/
def typeofObject : Json → Bool
  | .null => true
  | .arr _ => true
  | .obj _ => true
  | _ => false

end Json

/-- Truthiness of a possibly-absent (`undefined`) value. -/
def truthyO : Option Json → Bool
  | some v => v.truthy
  | none => false

/-- ASCII lower-casing of one character, as `String.prototype.toLowerCase`
acts on the ASCII range (the only range exercised here). -/
def chLower (c : Char) : Char :=
  if 'A' ≤ c ∧ c ≤ 'Z' then Char.ofNat (c.toNat + 32) else c

/-- Model of `s.toLowerCase()` (ASCII range). -/
def jsToLower (s : String) : String := ⟨s.data.map chLower⟩

/-- A string that is a canonical decimal array index ("0", "1", …):
`JSON.parse` stores array elements under canonical index keys only. -/
def strToIdx (s : String) : Option Nat :=
  if s.data ≠ [] ∧ s.data.all Char.isDigit ∧ (s = "0" ∨ s.data.head? ≠ some '0') then
    some (s.data.foldl (fun n c => n * 10 + (c.toNat - 48)) 0)
  else none

/-- JS property read `v[k]` on a non-null value; `none` is `undefined`.
On objects it is the field lookup, on arrays and strings canonical numeric
indices are live. -/
def getProp : Json → String → Option Json
  | .obj fs, k => fs.lookup k
  | .arr es, k =>
      match strToIdx k with
      | some i => es.get? i
      | none => none
  | .str s, k =>
      match strToIdx k with
      | some i => (s.data.get? i).map (fun c => Json.str ⟨[c]⟩)
      | none => none
  | _, _ => none

/-- Model of `Object.keys(v)` for non-null `v` (callers guard the throwing `null`
case explicitly): own enumerable keys in insertion/index order. -/
def keysOf : Json → List String
  | .obj fs => fs.map Prod.fst
  | .arr es => (List.range es.length).map toString
  | .str s => (List.range s.data.length).map toString
  | _ => []

/-- The canonical posts document: ordered map platform key → posts value
(the code stores whatever value the shape supplied, normally a JSON array). -/
abbrev PostsData := List (String × Json)

/-- JS object assignment `m[k] = v`: updates an existing key in place,
otherwise appends the new key (insertion order). -/
def assign (m : PostsData) (k : String) (v : Json) : PostsData :=
  match m with
  | [] => [(k, v)]
  | (k', v') :: rest =>
      if k' = k then (k', v) :: rest else (k', v') :: assign rest k v

/-- Model of `if (!grouped[k]) grouped[k] = []; grouped[k].push(post)` —
append `post` to the bucket of `k`, creating the bucket if absent. -/
def pushPost (m : PostsData) (k : String) (post : Json) : PostsData :=
  match m with
  | [] => [(k, Json.arr [post])]
  | (k', v) :: rest =>
      if k' = k then
        (k', match v with
             | Json.arr xs => Json.arr (xs ++ [post])
             | other => other) :: rest
      else (k', v) :: pushPost rest k post

/-- Model of `normalizeKeys` in page.tsx: keep only array-valued entries, lower-case
every key.  `Object.keys(null)` throws, hence the `Except`. -/
def normalizeKeys (o : Json) : Except Unit PostsData :=
  if o.isNull then .error ()
  else .ok ((keysOf o).foldl
    (fun acc k =>
      match getProp o k with
      | some v => if v.isArr then assign acc (jsToLower k) v else acc
      | none => acc) [])

/-- Structure 1 builder: `parsed.platforms.forEach(...)` — for each record,
`platform.name.toLowerCase()` throws unless `name` is a string (and property
access on a `null` record throws), `platform.posts || []` defaults falsy
posts to an empty array. -/
def shape1build : List Json → PostsData → Except Unit PostsData
  | [], acc => .ok acc
  | p :: rest, acc =>
      if p.isNull then .error ()
      else
        match getProp p "name" with
        | some (Json.str n) =>
            let posts :=
              match getProp p "posts" with
              | some v => if v.truthy then v else Json.arr []
              | none => Json.arr []
            shape1build rest (assign acc (jsToLower n) posts)
        | _ => .error ()

/-- Structure 5 builder: group a flat array of post records by
`(post.platform || "general").toLowerCase()`; a non-string truthy platform
(or a `null` record) throws. -/
def shape5build : List Json → PostsData → Except Unit PostsData
  | [], acc => .ok acc
  | post :: rest, acc =>
      if post.isNull then .error ()
      else
        match getProp post "platform" with
        | some v =>
            if v.truthy then
              match v with
              | Json.str s => shape5build rest (pushPost acc (jsToLower s) post)
              | _ => .error ()
            else shape5build rest (pushPost acc "general" post)
        | none => shape5build rest (pushPost acc "general" post)

/-- Structures 3/4/5 of `parsePostsJson` (shared fall-through continuation
after the structure-2 conditional). -/
def parseShapes345 (parsed : Json) (ks : List String) :
    Except Unit (Option PostsData) :=
  -- Structure 3: at least one array-valued own key → whole map is the data
  if ks.any (fun k => ((getProp parsed k).getD Json.null).isArr) then
    (normalizeKeys parsed).map some
  else
    -- Structure 4: a `posts` field that is a (non-array, non-null) object
    let postsV := (getProp parsed "posts").getD Json.null
    if postsV.truthy ∧ postsV.typeofObject ∧ ¬ postsV.isArr then
      (normalizeKeys postsV).map some
    else
      -- Structure 5: a flat array of post records
      match parsed with
      | Json.arr es => (shape5build es []).map some
      | _ => .ok none

/-- The body of `parsePostsJson` after `JSON.parse` succeeded, with thrown
TypeErrors as `Except.error`.  Mirrors the source's fixed priority order:
the `{raw, error}` escape hatch first, then structures 1–5, else `null`. -/
def parsePostsJsonVal (parsed : Json) : Except Unit (Option PostsData) :=
  if parsed.isNull then .error () -- `parsed.raw` throws on null
  else if truthyO (getProp parsed "raw") ∧ truthyO (getProp parsed "error") then
    .ok none
  else
    -- Structure 1: `parsed.platforms && Array.isArray(parsed.platforms)`
    match getProp parsed "platforms" with
    | some (Json.arr es) => (shape1build es []).map some
    | _ =>
      -- Structure 2: case-insensitive `platforms` key holding a non-array
      let ks := keysOf parsed
      match ks.find? (fun k => jsToLower k = "platforms") with
      | some pk =>
          let v := (getProp parsed pk).getD Json.null
          if v.typeofObject ∧ ¬ v.isArr then (normalizeKeys v).map some
          else parseShapes345 parsed ks
      | none => parseShapes345 parsed ks

/-- Model of `parsePostsJson(raw)`: the argument is the result of `JSON.parse raw`
(`none` when parsing threw); the surrounding `try/catch` turns every thrown
error into `null`. -/
def parsePostsJson (doc : Option Json) : Option PostsData :=
  match doc with
  | none => none
  | some parsed =>
      match parsePostsJsonVal parsed with
      | .ok r => r
      | .error _ => none

/-- Shape detector 1: a `platforms` field holding an array
(`parsed.platforms && Array.isArray(parsed.platforms)`). -/
def det1 (j : Json) : Bool :=
  match getProp j "platforms" with
  | some (Json.arr _) => true
  | _ => false

/-- Shape detector 2: a case-insensitively named `platforms` key whose value
has `typeof === "object"` and is not an array. -/
def det2 (j : Json) : Bool :=
  match (keysOf j).find? (fun k => jsToLower k = "platforms") with
  | some pk =>
      let v := (getProp j pk).getD Json.null
      v.typeofObject ∧ ¬ v.isArr
  | none => false

/-- Shape detector 3: some own key holds an array. -/
def det3 (j : Json) : Bool :=
  (keysOf j).any (fun k => ((getProp j k).getD Json.null).isArr)

/-- Shape detector 4: a truthy, non-array `posts` field of object type. -/
def det4 (j : Json) : Bool :=
  let v := (getProp j "posts").getD Json.null
  v.truthy ∧ v.typeofObject ∧ ¬ v.isArr

/-- Shape detector 5: the parsed value is itself an array. -/
def det5 (j : Json) : Bool := j.isArr

/-- A `{name, posts}` platform record (structure 1). -/
def mkRec1 (e : String × List Json) : Json :=
  Json.obj [("name", Json.str e.1), ("posts", Json.arr e.2)]

/-- Structure-1 input: `{ platforms: [{name, posts}, ...] }`. -/
def mkShape1 (entries : List (String × List Json)) : Json :=
  Json.obj [("platforms", Json.arr (entries.map mkRec1))]

/-- The platform→posts sub-map shared by shapes 2–4. -/
def mkMap (entries : List (String × List Json)) : List (String × Json) :=
  entries.map (fun e => (e.1, Json.arr e.2))

/-- Structure-2 input: `{ <pk>: { K: [...], ... } }` with `pk` matching
`platforms` case-insensitively. -/
def mkShape2 (pk : String) (entries : List (String × List Json)) : Json :=
  Json.obj [(pk, Json.obj (mkMap entries))]

/-- Structure-3 input: a direct platform-key map `{ K: [...], ... }`. -/
def mkShape3 (entries : List (String × List Json)) : Json :=
  Json.obj (mkMap entries)

/-- Structure-4 input: `{ posts: { K: [...], ... } }`. -/
def mkShape4 (entries : List (String × List Json)) : Json :=
  Json.obj [("posts", Json.obj (mkMap entries))]

/-- A structure-5 post record: optional `platform` field plus other fields. -/
def mkPost5 (it : Option String × List (String × Json)) : Json :=
  Json.obj (match it.1 with
            | some p => ("platform", Json.str p) :: it.2
            | none => it.2)

/-- Structure-5 input: a flat array of post records. -/
def mkShape5 (items : List (Option String × List (String × Json))) : Json :=
  Json.arr (items.map mkPost5)

/-- The bucket key a structure-5 record lands in:
`(post.platform || "general").toLowerCase()`. -/
def key5 : Option String → String
  | some p => jsToLower p
  | none => "general"

/-- Expected canonical document for shapes 1–4: lower-cased keys in input
order, each mapped to its original posts array. -/
def canonOf (entries : List (String × List Json)) : PostsData :=
  entries.map (fun e => (jsToLower e.1, Json.arr e.2))

/-- First-occurrence deduplication of a key list. -/
def dedupFirst : List String → List String
  | [] => []
  | k :: rest => k :: (dedupFirst rest).filter (· ≠ k)

/-- All values tagged `k`, in original order. -/
def bucketOf (ps : List (String × Json)) (k : String) : List Json :=
  (ps.filter (fun q => q.1 = k)).map Prod.snd

/-- Reference grouping of tagged values: bucket keys in first-occurrence
order, each bucket holding its values in original order. -/
def groupPairs (ps : List (String × Json)) : PostsData :=
  (dedupFirst (ps.map Prod.fst)).map (fun k => (k, Json.arr (bucketOf ps k)))

/-- The ten decimal digit characters. -/
def digitChars : List Char := ['0', '1', '2', '3', '4', '5', '6', '7', '8', '9']

/-- The tagged pairs a structure-5 input groups: bucket key and record. -/
def pairs5 (items : List (Option String × List (String × Json))) :
    List (String × Json) :=
  items.map (fun it => (key5 it.1, mkPost5 it))

/-- All posts appearing anywhere in a canonical document. -/
def allPosts (m : PostsData) : List Json :=
  m.foldr (fun kv acc =>
    (match kv.2 with
     | Json.arr xs => xs
     | v => [v]) ++ acc) []

/-- Model of `String(x)` on a JSON value (`Array.prototype.join(",")` renders `null`
elements as the empty string; plain objects print `[object Object]`). -/
def jsString : Json → String
  | .null => "null"
  | .bool b => if b then "true" else "false"
  | .num n => toString n
  | .str s => s
  | .obj _ => "[object Object]"
  | .arr es =>
      String.intercalate "," (es.attach.map (fun e =>
        if e.1.isNull then "" else jsString e.1))
decreasing_by
  have h := List.sizeOf_lt_of_mem e.2
  simp_wf
  omega

/-- The two agent panels of the page. -/
inductive Agent where
  | contentCreator
  | socialAnalyst
deriving Repr, DecidableEq

/-- One entry of the `messages` state. -/
structure ChatMessage where
  agent : Agent
  content : String
  parsedPosts : Option PostsData
deriving Repr

/-- React state of the page plus the refs the handlers read:
`completedRef` is the completion latch, `esOpen` models `esRef` being
non-null.  `logs` is kept as the list of appended lines (the source joins
them with a newline for display). -/
structure ClientState where
  running : Bool
  error : Option String
  logs : List String
  messages : List ChatMessage
  completedRef : Bool
  esOpen : Bool
deriving Repr

/-- Outcome of one artifact `fetch` as the client observes it: an ok
response (body text; for the content artifact also its `JSON.parse` result,
`none` when parsing would throw), a non-ok HTTP response, or a rejected
promise (network error) carrying the stringified error. -/
inductive FetchOutcome where
  | ok (raw : String) (doc : Option Json)
  | httpErr
  | netErr (msg : String)

/-- The environment of one run: what the two artifact fetches return. -/
structure FetchEnv where
  content : FetchOutcome
  report : FetchOutcome

/-- Model of `appendLog`. -/
def appendLog (s : ClientState) (line : String) : ClientState :=
  { s with logs := s.logs ++ [line] }

/-- The message `onerror` shows when the latch is unset. -/
def connectionErrorMsg : String :=
  "Connection error. The server might be waking up. Please try again."

/-- Fallback message of the `failed` branch. -/
def backendErrorMsg : String := "Backend error"

/-- Model of `data.message || "Backend error"` in the failed branch. -/
def failedMsgOf (d : Json) : String :=
  match getProp d "message" with
  | some v => if v.truthy then jsString v else backendErrorMsg
  | none => backendErrorMsg

/-- The Content Creator message pushed for each content-fetch outcome. -/
def ccMsgOf : FetchOutcome → ChatMessage
  | .ok raw doc => ⟨.contentCreator, raw, parsePostsJson doc⟩
  | _ => ⟨.contentCreator, "", none⟩

/-- Diagnostic log lines of the content fetch: only the `catch` branch
(network error) logs; a non-ok response is silent. -/
def ccLogOf : FetchOutcome → List String
  | .netErr m => ["social_posts.json fetch failed: " ++ m]
  | _ => []

/-- The Social Analyst message pushed for each report-fetch outcome. -/
def saMsgOf : FetchOutcome → ChatMessage
  | .ok raw _ => ⟨.socialAnalyst, raw, none⟩
  | _ => ⟨.socialAnalyst, "", none⟩

/-- Diagnostic log lines of the report fetch (the `catch` branch only). -/
def saLogOf : FetchOutcome → List String
  | .netErr m => ["analytics_summary.md fetch failed: " ++ m]
  | _ => []

/-- The body of the `status === "completed"` branch after the latch is set:
both artifacts fetched independently, the message list replaced, spinner
stopped.  (The `activePlatform` tab bookkeeping is view state, omitted.) -/
def completedBranch (fenv : FetchEnv) (s : ClientState) : ClientState :=
  { s with
    logs := s.logs ++ ccLogOf fenv.content ++ saLogOf fenv.report,
    messages := [ccMsgOf fenv.content, saMsgOf fenv.report],
    running := false }

/-- One `data:` payload as delivered to `onmessage`: the raw text and its
`JSON.parse` result (`none` when parsing throws). -/
structure SseMsg where
  raw : String
  parsed : Option Json

/-- Stream notifications the browser can deliver to this client's handlers. -/
inductive StreamEvent where
  | message (m : SseMsg)
  | doneEvt (payload : String)
  | errorEvt

/-- Model of `es.onmessage`: log the line; inside `try`, a null parse result or a
missing/non-terminal `status` falls through silently; `"completed"` latches,
closes and runs the artifact fetches; `"failed"` latches and surfaces the
message. -/
def onMessage (fenv : FetchEnv) (s : ClientState) (m : SseMsg) : ClientState :=
  let s1 := appendLog s m.raw
  match m.parsed with
  | none => s1
  | some d =>
      if d.isNull then s1
      else
        match getProp d "status" with
        | some (Json.str "completed") =>
            completedBranch fenv { s1 with completedRef := true, esOpen := false }
        | some (Json.str "failed") =>
            { s1 with completedRef := true,
                      error := some (failedMsgOf d),
                      running := false, esOpen := false }
        | _ => s1

/-- Model of `es.onerror`: a user-visible error only when the latch is unset; always
closes and stops the spinner. -/
def onError (s : ClientState) : ClientState :=
  let s1 := if s.completedRef then s else { s with error := some connectionErrorMsg }
  { s1 with esOpen := false, running := false }

/-- Dispatch of one delivered notification.  This client registers handlers
for `message` and `error` only: a named `done` event has no listener. -/
def stepEvent (fenv : FetchEnv) (s : ClientState) : StreamEvent → ClientState
  | .message m => onMessage fenv s m
  | .doneEvt _ => s
  | .errorEvt => onError s

/-- Handler response to a whole delivered notification sequence. -/
def processEvents (fenv : FetchEnv) (s : ClientState)
    (evts : List StreamEvent) : ClientState :=
  evts.foldl (stepEvent fenv) s

/-- The state reset at the top of `runFlow` (fresh run, latch cleared,
stream opened). -/
def runFlowInit (s : ClientState) : ClientState :=
  { s with running := true, error := none, logs := [], messages := [],
           completedRef := false, esOpen := true }

/-- A delivered notification is terminal when it is a `data:` payload whose
JSON has `status` `"completed"` or `"failed"`. -/
def isTerminalEvent : StreamEvent → Bool
  | .message m =>
      match m.parsed with
      | some d =>
          if d.isNull then false
          else
            match getProp d "status" with
            | some (Json.str "completed") => true
            | some (Json.str "failed") => true
            | _ => false
      | none => false
  | _ => false

/-- A quiescent client state (page load). -/
def initialState : ClientState :=
  ⟨false, none, [], [], false, false⟩

/-- The inline-JSON terminal payload `data: {"status":"completed"}`. -/
def completedMsg : SseMsg :=
  ⟨"\x7b\"status\":\"completed\"\x7d", some (Json.obj [("status", Json.str "completed")])⟩

/-- One outbound SSE frame: `writeSse line` is `data: <line>\n\n`,
`writeEvent name payload` is `event: <name>\ndata: <payload>\n\n`. -/
inductive Frame where
  | data (text : String)
  | event (name payload : String)
deriving Repr, DecidableEq

/-- JS `String(b)` for a boolean (`fs.existsSync` result). -/
def jsBoolStr (b : Bool) : String := if b then "true" else "false"

/-- The `proc.on("close")` handler of the local-mode streaming route: the
frames it enqueues on process exit, in order, given the exit code (`none`
models a JS `null` code, defaulted to `-1` by `code ?? -1`) and the
on-disk existence of the three checked files; the stream is closed right
after the last frame. -/
def closeFrames (code : Option Int) (backendDir : String)
    (jsonExists mdExists logExists : Bool) : List Frame :=
  [ .data ("Process exited with code: " ++ toString (code.getD (-1))),
    .data ("Backend CWD was: " ++ backendDir),
    .data ("Check output: social_posts.json exists? " ++ jsBoolStr jsonExists),
    .data ("Check output: analytics_summary.md exists? " ++ jsBoolStr mdExists),
    .data ("Check log: run.log exists? " ++ jsBoolStr logExists),
    .event "done" (toString (code.getD (-1))) ]

/-- The whitespace class of the regex `\\s` (ASCII part). -/
def isEnvWs (c : Char) : Bool :=
  c = ' ' ∨ c = '\t' ∨ c = '\x0b' ∨ c = '\x0c' ∨ c = '\r' ∨ c = '\n'

/-- First character of the key pattern `[A-Za-z_]`. -/
def isIdentStart (c : Char) : Bool := c.isAlpha ∨ c = '_'

/-- Continuation character of the key pattern `[A-Za-z0-9_]`. -/
def isIdentChar (c : Char) : Bool := c.isAlphanum ∨ c = '_'

/-- The deterministic reading of the line pattern: leading whitespace, a
maximal identifier, whitespace, `=`, whitespace, and the greedy `(.*)`
captures the whole remainder (the trailing whitespace-star matches empty). -/
def matchEnvLine (cs : List Char) : Option (String × List Char) :=
  match cs.dropWhile isEnvWs with
  | [] => none
  | c :: rest =>
      if isIdentStart c then
        match (rest.dropWhile isIdentChar).dropWhile isEnvWs with
        | '=' :: rest4 =>
            some (⟨c :: rest.takeWhile isIdentChar⟩, rest4.dropWhile isEnvWs)
        | _ => none
      else none

/-- Strip one pair of surrounding matching quotes, as
`val.startsWith('"') && val.endsWith('"')` / the single-quote twin. -/
def stripQuotesL (v : List Char) : List Char :=
  if (v.head? = some '"' ∧ v.getLast? = some '"') ∨
     (v.head? = some '\'' ∧ v.getLast? = some '\'') then
    (v.drop 1).dropLast
  else v

/-- Parse one `.env` line to a key/value pair (`none`: malformed, skipped). -/
def parseEnvLine (line : List Char) : Option (String × String) :=
  match matchEnvLine line with
  | some (k, v) => some (k, ⟨stripQuotesL v⟩)
  | none => none

/-- JS map assignment `env[key] = val` on an ordered environment. -/
def envSet (env : List (String × String)) (k v : String) : List (String × String) :=
  match env with
  | [] => [(k, v)]
  | (k', v') :: rest =>
      if k' = k then (k', v) :: rest else (k', v') :: envSet rest k v

/-- Apply one source line: malformed lines leave the environment unchanged. -/
def applyEnvLine (env : List (String × String)) (line : List Char) :
    List (String × String) :=
  match parseEnvLine line with
  | none => env
  | some (k, v) => envSet env k v

/-- Model of `raw.split` at each newline, stripping one carriage return preceding
the newline (the `\\r?\\n` separator). -/
def splitLines (cs : List Char) : List (List Char) :=
  (cs.splitOnP (· = '\n')).map
    (fun l => if l.getLast? = some '\r' then l.dropLast else l)

/-- The `.env` merge of the streaming route: an absent or unreadable source
(`none`, covering both `existsSync` false and a thrown read, which the
`catch` ignores) leaves the base environment unchanged; otherwise every
line is applied in order, later lines overriding earlier ones and the base. -/
def mergeDotenv (base : List (String × String)) (content : Option (List Char)) :
    List (String × String) :=
  match content with
  | none => base
  | some raw => (splitLines raw).foldl applyEnvLine base

/-- Read one key of the merged environment. -/
def lookupEnv (env : List (String × String)) (k : String) : Option String :=
  env.lookup k

/-- The character class `[A-Za-z0-9._-]`. -/
def nameClassChar (c : Char) : Bool :=
  c.isAlphanum ∨ c = '.' ∨ c = '_' ∨ c = '-'

/-- The filename pattern of the artifact route: every character in the
class `[A-Za-z0-9._-]` and the name is a nonempty stem followed by `.md`,
`.json` or `.txt`. -/
def validName (name : String) : Bool :=
  name.data.all nameClassChar &&
  ((('.' :: "md".data).isSuffixOf name.data && decide (4 ≤ name.data.length)) ||
   (('.' :: "json".data).isSuffixOf name.data && decide (6 ≤ name.data.length)) ||
   (('.' :: "txt".data).isSuffixOf name.data && decide (5 ≤ name.data.length)))

/-- The first externally visible action of the route's GET handler. -/
inductive FileAction where
  | reject400                        -- `{error: "Invalid filename"}`, 400
  | remoteFetch (base name : String) -- proxy `fetch(base + "/file/" + name)`
  | localRead (name : String)        -- read `../backend/<name>` from disk
deriving Repr, DecidableEq

/-- GET of the artifact route up to its first I/O: the pattern test runs
first and rejects with 400 before any fetch or filesystem access;
`backendUrl` is `BACKEND_URL` after the truthiness/trim check. -/
def fileRouteAction (name : String) (backendUrl : Option String) : FileAction :=
  if ¬ validName name then .reject400
  else
    match backendUrl with
    | some base => .remoteFetch base name
    | none => .localRead name

/-- Model of `s.split` on runs of whitespace with empty tokens dropped, at character level. -/
def jsSplitWs (s : String) : List String :=
  ((s.data.splitOnP isEnvWs).filter (· ≠ [])).map (fun cs => (⟨cs⟩ : String))

/-- The hashtag extraction of `PostCard`: `post.hashtags || post.tags`; an
array value is used as-is (each tag rendered via `String(tag)`), a string
value is tokenized on whitespace, anything else yields no hashtags. -/
def hashtagsOf (hashtags tags : Option Json) : List String :=
  match (if truthyO hashtags then hashtags else tags) with
  | some (Json.arr es) => es.map jsString
  | some (Json.str s) => jsSplitWs s
  | _ => []

/-- The whitespace-separated joining of a token list (the "equivalent
pre-split sequence" direction of the spec's property). -/
def joinWs : List String → List Char
  | [] => []
  | [t] => t.data
  | t :: rest => t.data ++ ' ' :: joinWs rest

/-! ## Theorems -/

/-- Assigning a fresh key appends it. -/
theorem assign_notMem (m : PostsData) (k : String) (v : Json)
    (h : k ∉ m.map Prod.fst) : assign m k v = m ++ [(k, v)] := by
  induction m with
  | nil => rfl
  | cons e rest ih =>
      simp only [List.map_cons, List.mem_cons] at h
      push_neg at h
      have h1 : ¬ e.1 = k := fun hh => h.1 hh.symm
      simp [assign, h1, ih h.2]

/-- Folding JS assignments of pairwise-fresh keys just appends them. -/
theorem foldl_assign (l : List (String × Json)) (acc : PostsData)
    (hnd : (l.map Prod.fst).Nodup)
    (hfresh : ∀ k ∈ l.map Prod.fst, k ∉ acc.map Prod.fst) :
    List.foldl (fun m e => assign m e.1 e.2) acc l = acc ++ l := by
  induction l generalizing acc with
  | nil => simp
  | cons e rest ih =>
      simp only [List.map_cons, List.nodup_cons] at hnd
      have h1 : e.1 ∉ acc.map Prod.fst := hfresh e.1 (by simp)
      have step : assign acc e.1 e.2 = acc ++ [(e.1, e.2)] := assign_notMem _ _ _ h1
      simp only [List.foldl_cons, step]
      rw [ih (acc ++ [(e.1, e.2)]) hnd.2]
      · simp
      · intro k hk
        simp only [List.map_append, List.mem_append, List.map_cons, List.map_nil,
          List.mem_singleton, not_or]
        exact ⟨hfresh k (by simp [hk]), by rintro rfl; exact hnd.1 hk⟩

/-- Field lookup hits the first entry with the queried key. -/
theorem lookup_cons_self (k : String) (v : Json) (rest : List (String × Json)) :
    ((k, v) :: rest).lookup k = some v := by
  simp [List.lookup]

/-- Field lookup skips an entry with a different key. -/
theorem lookup_cons_ne (k a : String) (v : Json) (rest : List (String × Json))
    (h : k ≠ a) : ((k, v) :: rest).lookup a = rest.lookup a := by
  have hb : (a == k) = false := beq_eq_false_iff_ne.mpr (fun hh => h hh.symm)
  simp [List.lookup, hb]

/-- Lookup of an absent key is `undefined`. -/
theorem lookup_eq_none_of_notMem (fs : List (String × Json)) (k : String)
    (h : k ∉ fs.map Prod.fst) : fs.lookup k = none := by
  induction fs with
  | nil => rfl
  | cons e rest ih =>
      simp only [List.map_cons, List.mem_cons] at h
      push_neg at h
      rw [show e = (e.1, e.2) from rfl, lookup_cons_ne _ _ _ _ (fun hh => h.1 hh.symm)]
      exact ih h.2

/-- With distinct keys, every entry is found by its own key. -/
theorem lookup_self_of_nodup (fs : List (String × Json))
    (hnd : (fs.map Prod.fst).Nodup) : ∀ e ∈ fs, fs.lookup e.1 = some e.2 := by
  induction fs with
  | nil => intro e he; cases he
  | cons f rest ih =>
      simp only [List.map_cons, List.nodup_cons] at hnd
      intro e he
      rcases List.mem_cons.mp he with rfl | he'
      · exact lookup_cons_self _ _ _
      · have hne : f.1 ≠ e.1 := by
          intro hh
          exact hnd.1 (hh ▸ List.mem_map_of_mem Prod.fst he')
        rw [show f = (f.1, f.2) from rfl, lookup_cons_ne _ _ _ _ hne]
        exact ih hnd.2 e he'

/-- Applying `Nat.digitChar` to a value below ten is a decimal digit character. -/
theorem digitChar_mem_digitChars : ∀ m : Fin 10, Nat.digitChar m.val ∈ digitChars := by
  decide

/-- Base-ten digit emission only produces decimal digit characters. -/
theorem toDigitsCore_digits (fuel : Nat) :
    ∀ (n : Nat) (ds : List Char), (∀ c ∈ ds, c ∈ digitChars) →
      ∀ c ∈ Nat.toDigitsCore 10 fuel n ds, c ∈ digitChars := by
  induction fuel with
  | zero => intro n ds hds c hc; exact hds c hc
  | succ fuel ih =>
      intro n ds hds c hc
      have hd : Nat.digitChar (n % 10) ∈ digitChars :=
        digitChar_mem_digitChars ⟨n % 10, Nat.mod_lt _ (by norm_num)⟩
      rw [Nat.toDigitsCore] at hc
      by_cases hz : n / 10 = 0
      · simp only [hz, if_true] at hc
        rcases List.mem_cons.mp hc with rfl | h'
        · exact hd
        · exact hds c h'
      · simp only [hz, if_false] at hc
        exact ih _ _ (fun c' hc' => by
          rcases List.mem_cons.mp hc' with rfl | h'
          · exact hd
          · exact hds c' h') c hc

/-- Printing `toString (n : Nat)` consists of decimal digit characters. -/
theorem toString_nat_digits (n : Nat) : ∀ c ∈ (toString n).data, c ∈ digitChars := by
  intro c hc
  exact toDigitsCore_digits (n + 1) n [] (by intro c' hc'; cases hc') c hc

/-- Lower-casing fixes digit characters. -/
theorem chLower_digit {c : Char} (h : c ∈ digitChars) : chLower c = c := by
  fin_cases h <;> decide

/-- An array index key never matches `platforms` case-insensitively. -/
theorem jsToLower_toString_nat_ne_platforms (n : Nat) :
    jsToLower (toString n) ≠ "platforms" := by
  intro h
  have hdata : (toString n).data.map chLower = "platforms".data :=
    congrArg String.data h
  have hp : 'p' ∈ (toString n).data.map chLower := by
    rw [hdata]; decide
  rcases List.mem_map.mp hp with ⟨c, hc, hcl⟩
  have hcd := toString_nat_digits n c hc
  rw [chLower_digit hcd] at hcl
  subst hcl
  exact absurd hcd (by decide)

/-- Folding the `normalizeKeys` body over keys whose lookups are the listed
array values is the same as folding direct assignments. -/
theorem normFold (big : Json) (rest : List (String × Json)) (acc : PostsData)
    (hlk : ∀ e ∈ rest, getProp big e.1 = some e.2)
    (harr : ∀ e ∈ rest, e.2.isArr) :
    List.foldl
      (fun acc k =>
        match getProp big k with
        | some v => if v.isArr then assign acc (jsToLower k) v else acc
        | none => acc) acc (rest.map Prod.fst)
      = List.foldl (fun m e => assign m e.1 e.2) acc
          (rest.map (fun e => (jsToLower e.1, e.2))) := by
  induction rest generalizing acc with
  | nil => rfl
  | cons e rest ih =>
      simp only [List.map_cons, List.foldl_cons]
      rw [hlk e (by simp)]
      show List.foldl _
        (if e.2.isArr = true then assign acc (jsToLower e.1) e.2 else acc) _ = _
      rw [if_pos (harr e (by simp))]
      exact ih _ (fun e' he' => hlk e' (by simp [he'])) (fun e' he' => harr e' (by simp [he']))

/-- On an object with all-array values and collision-free lowered keys,
`normalizeKeys` lowercases keys in place. -/
theorem normalizeKeys_obj (emap : List (String × Json))
    (hndl : (emap.map (fun e => jsToLower e.1)).Nodup)
    (harr : ∀ e ∈ emap, e.2.isArr) :
    normalizeKeys (Json.obj emap) = .ok (emap.map (fun e => (jsToLower e.1, e.2))) := by
  have hnd : (emap.map Prod.fst).Nodup := by
    have : (emap.map (fun e => jsToLower e.1)) = (emap.map Prod.fst).map jsToLower := by
      simp [List.map_map]
    rw [this] at hndl
    exact hndl.of_map
  show Except.ok _ = _
  rw [show keysOf (Json.obj emap) = emap.map Prod.fst from rfl]
  rw [normFold (Json.obj emap) emap []
        (fun e he => lookup_self_of_nodup emap hnd e he) harr]
  rw [foldl_assign _ [] (by simpa [List.map_map] using hndl) (by simp)]
  simp

/-- Structure-1 building is a fold of assignments of the lowered entries. -/
theorem shape1build_canon (entries : List (String × List Json)) (acc : PostsData) :
    shape1build (entries.map mkRec1) acc
      = .ok (List.foldl (fun m e => assign m e.1 e.2) acc (canonOf entries)) := by
  induction entries generalizing acc with
  | nil => rfl
  | cons e rest ih =>
      show shape1build (mkRec1 e :: rest.map mkRec1) acc = _
      rw [show shape1build (mkRec1 e :: rest.map mkRec1) acc
            = shape1build (rest.map mkRec1) (assign acc (jsToLower e.1) (Json.arr e.2))
          from rfl]
      rw [ih]
      rfl

/-- With pairwise-distinct lowered names, building structure 1 yields
exactly the lowered entries in order. -/
theorem shape1build_nodup (entries : List (String × List Json))
    (hndl : (entries.map (fun e => jsToLower e.1)).Nodup) :
    shape1build (entries.map mkRec1) [] = .ok (canonOf entries) := by
  rw [shape1build_canon]
  rw [foldl_assign _ [] (by simpa [canonOf, List.map_map] using hndl) (by simp)]
  simp

/-- Property access on an object is field lookup. -/
theorem getProp_obj (fs : List (String × Json)) (k : String) :
    getProp (Json.obj fs) k = fs.lookup k := rfl

/-- Field access skips a leading field with a different name. -/
theorem getProp_obj_cons_ne (pk k : String) (v : Json) (rest : List (String × Json))
    (h : pk ≠ k) : getProp (Json.obj ((pk, v) :: rest)) k = getProp (Json.obj rest) k :=
  lookup_cons_ne pk k v rest h

/-- Field access hits the leading field of that name. -/
theorem getProp_obj_cons_self (pk : String) (v : Json) (rest : List (String × Json)) :
    getProp (Json.obj ((pk, v) :: rest)) pk = some v :=
  lookup_cons_self pk v rest

/-- Absent values (`undefined`) are falsy. -/
theorem truthyO_none : truthyO none = false := rfl

/-- A key matching `platforms` case-insensitively is not `raw`. -/
theorem pk_ne_raw {pk : String} (hpk : jsToLower pk = "platforms") : pk ≠ "raw" := by
  rintro rfl; exact absurd hpk (by decide)

/-- A key matching `platforms` case-insensitively is not `error`. -/
theorem pk_ne_error {pk : String} (hpk : jsToLower pk = "platforms") : pk ≠ "error" := by
  rintro rfl; exact absurd hpk (by decide)

/-- Lowering the keys of the constructed sub-map gives the canonical form. -/
theorem canonOf_eq_map (entries : List (String × List Json)) :
    (mkMap entries).map (fun e => (jsToLower e.1, e.2)) = canonOf entries := by
  simp [mkMap, canonOf, List.map_map]

/-- Applying `normalizeKeys` to the constructed sub-map is the canonical document. -/
theorem normalizeKeys_mkMap (entries : List (String × List Json))
    (hndl : (entries.map (fun e => jsToLower e.1)).Nodup) :
    normalizeKeys (Json.obj (mkMap entries)) = .ok (canonOf entries) := by
  rw [normalizeKeys_obj (mkMap entries)
        (by simpa [mkMap, List.map_map] using hndl)
        (by rintro e he; simp [mkMap] at he; obtain ⟨a, b, hab, rfl⟩ := he; rfl)]
  rw [canonOf_eq_map]

/-- Structure 2: a case-insensitive `platforms` key holding a sub-map. -/
theorem parse_mkShape2 (pk : String) (entries : List (String × List Json))
    (hpk : jsToLower pk = "platforms")
    (hndl : (entries.map (fun e => jsToLower e.1)).Nodup) :
    parsePostsJson (some (mkShape2 pk entries)) = some (canonOf entries) := by
  have hval : parsePostsJsonVal (mkShape2 pk entries)
      = (normalizeKeys (Json.obj (mkMap entries))).map some := by
    unfold parsePostsJsonVal mkShape2
    rw [getProp_obj_cons_ne _ _ _ _ (pk_ne_raw hpk),
        getProp_obj_cons_ne _ _ _ _ (pk_ne_error hpk)]
    simp only [Json.isNull, getProp_obj, List.lookup, truthyO_none, Bool.false_eq_true,
      false_and, if_false]
    by_cases hc : pk = "platforms"
    · subst hc; rfl
    · have hb : ("platforms" == pk) = false := beq_eq_false_iff_ne.mpr (Ne.symm hc)
      simp [hb, keysOf, List.find?, hpk]
      intro h
      exact absurd (h rfl) (by simp [Json.isArr])
  show (match parsePostsJsonVal (mkShape2 pk entries) with
        | .ok r => r | .error _ => none) = _
  rw [hval, normalizeKeys_mkMap entries hndl]
  rfl

/-- Structure 1: `{ platforms: [{name, posts}, ...] }`. -/
theorem parse_mkShape1 (entries : List (String × List Json))
    (hndl : (entries.map (fun e => jsToLower e.1)).Nodup) :
    parsePostsJson (some (mkShape1 entries)) = some (canonOf entries) := by
  have hval : parsePostsJsonVal (mkShape1 entries)
      = (shape1build (entries.map mkRec1) []).map some := rfl
  show (match parsePostsJsonVal (mkShape1 entries) with
        | .ok r => r | .error _ => none) = _
  rw [hval, shape1build_nodup entries hndl]
  rfl

/-- Structure 4: `{ posts: {...} }`. -/
theorem parse_mkShape4 (entries : List (String × List Json))
    (hndl : (entries.map (fun e => jsToLower e.1)).Nodup) :
    parsePostsJson (some (mkShape4 entries)) = some (canonOf entries) := by
  have hval : parsePostsJsonVal (mkShape4 entries)
      = (normalizeKeys (Json.obj (mkMap entries))).map some := rfl
  show (match parsePostsJsonVal (mkShape4 entries) with
        | .ok r => r | .error _ => none) = _
  rw [hval, normalizeKeys_mkMap entries hndl]
  rfl

/-- Structure 3: a direct platform-key map with at least one entry. -/
theorem parse_mkShape3 (entries : List (String × List Json))
    (hne : entries ≠ [])
    (hndl : (entries.map (fun e => jsToLower e.1)).Nodup)
    (hplat : ∀ k ∈ entries.map Prod.fst, jsToLower k ≠ "platforms")
    (hre : ¬("raw" ∈ entries.map Prod.fst ∧ "error" ∈ entries.map Prod.fst)) :
    parsePostsJson (some (mkShape3 entries)) = some (canonOf entries) := by
  have hkeys : (mkMap entries).map Prod.fst = entries.map Prod.fst := by
    simp [mkMap, List.map_map]
  have hcond : ¬(truthyO (getProp (Json.obj (mkMap entries)) "raw") = true ∧
      truthyO (getProp (Json.obj (mkMap entries)) "error") = true) := by
    rw [not_and_or] at hre
    rcases hre with h | h
    · intro hC
      have h1 := hC.1
      rw [getProp_obj, lookup_eq_none_of_notMem _ _ (by rw [hkeys]; exact h)] at h1
      exact absurd h1 (by simp [truthyO])
    · intro hC
      have h2 := hC.2
      rw [getProp_obj, lookup_eq_none_of_notMem _ _ (by rw [hkeys]; exact h)] at h2
      exact absurd h2 (by simp [truthyO])
  have hpl : getProp (Json.obj (mkMap entries)) "platforms" = none := by
    rw [getProp_obj]
    apply lookup_eq_none_of_notMem
    rw [hkeys]
    intro hmem
    exact hplat _ hmem (by decide)
  have hfind : (keysOf (Json.obj (mkMap entries))).find?
      (fun k => jsToLower k = "platforms") = none := by
    rw [List.find?_eq_none]
    intro k hk
    rw [show keysOf (Json.obj (mkMap entries)) = (mkMap entries).map Prod.fst from rfl,
      hkeys] at hk
    simpa using hplat k hk
  have hany : ((keysOf (Json.obj (mkMap entries))).any
      (fun k => ((getProp (Json.obj (mkMap entries)) k).getD Json.null).isArr)) = true := by
    rcases entries with _ | ⟨e, rest⟩
    · exact absurd rfl hne
    · apply List.any_eq_true.mpr
      refine ⟨e.1, ?_, ?_⟩
      · exact List.mem_cons_self _ _
      · rw [show getProp (Json.obj (mkMap (e :: rest))) e.1
              = some (Json.arr e.2) from getProp_obj_cons_self _ _ _]
        rfl
  have hval : parsePostsJsonVal (mkShape3 entries)
      = (normalizeKeys (Json.obj (mkMap entries))).map some := by
    unfold parsePostsJsonVal mkShape3
    rw [if_neg (by simp [Json.isNull]), if_neg hcond, hpl]
    show (match keysOf (Json.obj (mkMap entries)) |>.find?
            (fun k => jsToLower k = "platforms") with
          | some pk => _ | none => _) = _
    rw [hfind]
    show parseShapes345 (Json.obj (mkMap entries)) (keysOf (Json.obj (mkMap entries))) = _
    unfold parseShapes345
    rw [if_pos hany]
  show (match parsePostsJsonVal (mkShape3 entries) with
        | .ok r => r | .error _ => none) = _
  rw [hval, normalizeKeys_mkMap entries hndl]
  rfl

/-- Deduplication preserves membership. -/
theorem mem_dedupFirst {k : String} : ∀ {l : List String}, k ∈ dedupFirst l ↔ k ∈ l := by
  intro l
  induction l with
  | nil => simp [dedupFirst]
  | cons a l ih =>
      simp only [dedupFirst, List.mem_cons, List.mem_filter]
      constructor
      · rintro (rfl | ⟨h, _⟩)
        · exact Or.inl rfl
        · exact Or.inr (ih.mp h)
      · rintro (rfl | h)
        · exact Or.inl rfl
        · by_cases hak : k = a
          · exact Or.inl hak
          · exact Or.inr ⟨ih.mpr h, by simpa using hak⟩

/-- Deduplication yields distinct keys. -/
theorem dedupFirst_nodup : ∀ (l : List String), (dedupFirst l).Nodup := by
  intro l
  induction l with
  | nil => simp [dedupFirst]
  | cons a l ih =>
      rw [dedupFirst, List.nodup_cons]
      refine ⟨?_, ih.filter _⟩
      intro hmem
      exact absurd (List.mem_filter.mp hmem).2 (by simp)

/-- Appending one key extends the dedup list iff the key is new. -/
theorem dedupFirst_append (l : List String) (k : String) :
    dedupFirst (l ++ [k]) = if k ∈ l then dedupFirst l else dedupFirst l ++ [k] := by
  induction l with
  | nil => simp [dedupFirst]
  | cons a l ih =>
      show a :: (dedupFirst (l ++ [k])).filter (· ≠ a) = _
      rw [ih]
      by_cases hk : k ∈ l
      · simp only [hk, if_true]
        have : k ∈ a :: l := List.mem_cons_of_mem a hk
        simp only [this, if_true]
        rfl
      · simp only [hk, if_false]
        by_cases hak : k = a
        · subst hak
          have : k ∈ k :: l := List.mem_cons_self _ _
          simp only [this, if_true]
          rw [List.filter_append]
          simp [dedupFirst]
        · have : k ∉ a :: l := by
            simp only [List.mem_cons, not_or]
            exact ⟨hak, hk⟩
          simp only [this, if_false]
          rw [List.filter_append]
          simp only [dedupFirst]
          congr 1
          simp [hak]

/-- The bucket of an absent key is empty. -/
theorem bucketOf_nil_of_notMem (ps : List (String × Json)) (k : String)
    (h : k ∉ ps.map Prod.fst) : bucketOf ps k = [] := by
  rw [bucketOf]
  have : ps.filter (fun q => q.1 = k) = [] := by
    rw [List.filter_eq_nil_iff]
    intro q hq
    simp only [decide_eq_true_eq]
    intro hh
    exact h (hh ▸ List.mem_map_of_mem Prod.fst hq)
  rw [this]
  rfl

/-- Appending one tagged value extends exactly its own bucket. -/
theorem bucketOf_append (ps : List (String × Json)) (k : String) (v : Json) (q : String) :
    bucketOf (ps ++ [(k, v)]) q
      = if k = q then bucketOf ps q ++ [v] else bucketOf ps q := by
  rw [bucketOf, List.filter_append]
  by_cases h : k = q
  · subst h
    simp [bucketOf]
  · simp [bucketOf, h]

/-- Pushing to a fresh key creates a singleton bucket at the end. -/
theorem pushPost_notMem (m : PostsData) (k : String) (v : Json)
    (h : k ∉ m.map Prod.fst) : pushPost m k v = m ++ [(k, Json.arr [v])] := by
  induction m with
  | nil => rfl
  | cons e rest ih =>
      simp only [List.map_cons, List.mem_cons] at h
      push_neg at h
      have h1 : ¬ e.1 = k := fun hh => h.1 hh.symm
      show (if e.1 = k then _ else _) = _
      rw [if_neg h1, ih h.2]
      rfl

/-- A push on a keyed map-form document updates exactly one bucket. -/
theorem pushPost_mapform (ks : List String) (b : String → List Json) (k : String) (v : Json)
    (hnd : ks.Nodup) (hk : k ∈ ks) :
    pushPost (ks.map (fun q => (q, Json.arr (b q)))) k v
      = ks.map (fun q => (q, Json.arr (if q = k then b q ++ [v] else b q))) := by
  induction ks with
  | nil => cases hk
  | cons a ks ih =>
      rw [List.nodup_cons] at hnd
      by_cases hak : a = k
      · subst hak
        show (if a = a then _ else _) = _
        rw [if_pos rfl]
        have hrest : ∀ q ∈ ks, (q, Json.arr (if q = a then b q ++ [v] else b q))
            = (q, Json.arr (b q)) := by
          intro q hq
          have : q ≠ a := fun hh => hnd.1 (hh ▸ hq)
          simp [this]
        simp only [List.map_cons, if_pos rfl]
        rw [List.map_congr_left hrest]
        rfl
      · have hk' : k ∈ ks := by
          rcases List.mem_cons.mp hk with rfl | h
          · exact absurd rfl hak
          · exact h
        show (if a = k then _ else _) = _
        rw [if_neg hak]
        simp only [List.map_cons]
        rw [show (if a = k then b a ++ [v] else b a) = b a from if_neg hak]
        congr 1
        exact ih hnd.2 hk'

/-- One JS push on the reference grouping extends it by one tagged value. -/
theorem pushPost_groupPairs (ps : List (String × Json)) (k : String) (v : Json) :
    pushPost (groupPairs ps) k v = groupPairs (ps ++ [(k, v)]) := by
  unfold groupPairs
  rw [List.map_append, List.map_cons, List.map_nil, dedupFirst_append]
  by_cases hk : k ∈ ps.map Prod.fst
  · simp only [hk, if_true]
    rw [pushPost_mapform _ (fun q => bucketOf ps q) k v (dedupFirst_nodup _)
          (mem_dedupFirst.mpr hk)]
    apply List.map_congr_left
    intro q hq
    rw [bucketOf_append]
    by_cases hqk : q = k
    · subst hqk
      simp
    · have : ¬ k = q := fun hh => hqk hh.symm
      simp [hqk, this]
  · simp only [hk, if_false]
    rw [pushPost_notMem _ _ _ (by
      intro hmem
      rw [List.map_map] at hmem
      simp only [List.mem_map, Function.comp_apply] at hmem
      obtain ⟨q, hq, rfl⟩ := hmem
      exact hk (mem_dedupFirst.mp hq))]
    rw [List.map_append, List.map_cons, List.map_nil]
    congr 1
    · apply List.map_congr_left
      intro q hq
      rw [bucketOf_append]
      have hqk : ¬ k = q := by
        rintro rfl
        exact hk (mem_dedupFirst.mp hq)
      simp [hqk]
    · rw [bucketOf_append]
      simp only [if_pos rfl]
      rw [bucketOf_nil_of_notMem ps k hk]
      rfl

/-- Folding JS pushes from a grouped prefix groups the whole list. -/
theorem foldl_pushPost_group (qs ps : List (String × Json)) :
    List.foldl (fun m q => pushPost m q.1 q.2) (groupPairs ps) qs
      = groupPairs (ps ++ qs) := by
  induction qs generalizing ps with
  | nil => simp
  | cons q qs ih =>
      rw [List.foldl_cons, pushPost_groupPairs]
      rw [ih (ps ++ [q])]
      simp

/-- Folding JS pushes from the empty document is the reference grouping. -/
theorem foldl_pushPost_nil (qs : List (String × Json)) :
    List.foldl (fun m q => pushPost m q.1 q.2) [] qs = groupPairs qs := by
  have h0 : groupPairs [] = ([] : PostsData) := rfl
  rw [show ([] : PostsData) = groupPairs [] from rfl, foldl_pushPost_group]
  simp

/-- Structure-5 building is the fold of pushes of the tagged pairs. -/
theorem shape5build_items (items : List (Option String × List (String × Json)))
    (hplat : ∀ it ∈ items, it.1 = none → "platform" ∉ it.2.map Prod.fst)
    (hne : ∀ it ∈ items, ∀ p, it.1 = some p → p ≠ "") :
    ∀ acc : PostsData,
      shape5build (items.map mkPost5) acc
        = .ok (List.foldl (fun m q => pushPost m q.1 q.2) acc (pairs5 items)) := by
  induction items with
  | nil => intro acc; rfl
  | cons it rest ih =>
      intro acc
      rcases it with ⟨op, fields⟩
      rcases op with _ | p
      · -- no platform field: bucket "general"
        have hlk : getProp (mkPost5 (none, fields)) "platform" = none := by
          rw [show mkPost5 (none, fields) = Json.obj fields from rfl, getProp_obj]
          exact lookup_eq_none_of_notMem _ _ (hplat (none, fields) (List.mem_cons_self _ _) rfl)
        rw [List.map_cons]
        rw [show shape5build (mkPost5 (none, fields) :: rest.map mkPost5) acc
              = (match getProp (mkPost5 (none, fields)) "platform" with
                 | some v =>
                     if v.truthy then
                       match v with
                       | Json.str s => shape5build (rest.map mkPost5)
                           (pushPost acc (jsToLower s) (mkPost5 (none, fields)))
                       | _ => .error ()
                     else shape5build (rest.map mkPost5)
                       (pushPost acc "general" (mkPost5 (none, fields)))
                 | none => shape5build (rest.map mkPost5)
                     (pushPost acc "general" (mkPost5 (none, fields)))) from rfl]
        rw [hlk]
        rw [ih (fun it h => hplat it (by simp [h])) (fun it h => hne it (by simp [h])) _]
        rfl
      · -- platform field present and non-empty: bucket jsToLower p
        have hp : p ≠ "" := hne (some p, fields) (List.mem_cons_self _ _) p rfl
        have htr : (Json.str p).truthy = true := by
          simp [Json.truthy]
          exact hp
        rw [List.map_cons]
        rw [show shape5build (mkPost5 (some p, fields) :: rest.map mkPost5) acc
              = (match getProp (mkPost5 (some p, fields)) "platform" with
                 | some v =>
                     if v.truthy then
                       match v with
                       | Json.str s => shape5build (rest.map mkPost5)
                           (pushPost acc (jsToLower s) (mkPost5 (some p, fields)))
                       | _ => .error ()
                     else shape5build (rest.map mkPost5)
                       (pushPost acc "general" (mkPost5 (some p, fields)))
                 | none => shape5build (rest.map mkPost5)
                     (pushPost acc "general" (mkPost5 (some p, fields)))) from rfl]
        rw [show getProp (mkPost5 (some p, fields)) "platform"
              = some (Json.str p) from getProp_obj_cons_self _ _ _]
        show (if (Json.str p).truthy then _ else _) = _
        rw [if_pos htr]
        show shape5build (rest.map mkPost5)
          (pushPost acc (jsToLower p) (mkPost5 (some p, fields))) = _
        rw [ih (fun it h => hplat it (by simp [h])) (fun it h => hne it (by simp [h])) _]
        rfl

/-- On an array with no array elements, the 3/4/5 fall-through reaches
structure 5. -/
theorem parseShapes345_arr (es : List Json) (ks : List String)
    (hnoarr : ∀ e ∈ es, e.isArr = false) :
    parseShapes345 (Json.arr es) ks = (shape5build es []).map some := by
  unfold parseShapes345
  have hany : (ks.any fun k => ((getProp (Json.arr es) k).getD Json.null).isArr) = false := by
    rw [List.any_eq_false]
    intro k hk
    rw [show getProp (Json.arr es) k
          = (match strToIdx k with | some i => es.get? i | none => none) from rfl]
    rcases hidx : strToIdx k with _ | i
    · simp [Json.isArr]
    · rcases hget : es[i]? with _ | e
      · simp [hget, Json.isArr]
      · have he : e ∈ es := by
          have := hget
          rw [← List.get?_eq_getElem?] at this
          exact List.get?_mem this
        simp [hget, hnoarr e he]
  rw [hany]
  rfl

/-- Structure 5: a flat array of records grouped by `platform`
(case-insensitive, default bucket `"general"`). -/
theorem parse_mkShape5 (items : List (Option String × List (String × Json)))
    (hplat : ∀ it ∈ items, it.1 = none → "platform" ∉ it.2.map Prod.fst)
    (hne : ∀ it ∈ items, ∀ p, it.1 = some p → p ≠ "") :
    parsePostsJson (some (mkShape5 items)) = some (groupPairs (pairs5 items)) := by
  have hnoarr : ∀ e ∈ items.map mkPost5, e.isArr = false := by
    intro e he
    rw [List.mem_map] at he
    obtain ⟨it, hit, rfl⟩ := he
    rcases it with ⟨op, fields⟩
    cases op <;> rfl
  have hfind : (keysOf (mkShape5 items)).find?
      (fun k => jsToLower k = "platforms") = none := by
    rw [List.find?_eq_none]
    intro k hk
    rw [show keysOf (mkShape5 items)
          = (List.range (items.map mkPost5).length).map toString from rfl] at hk
    rw [List.mem_map] at hk
    obtain ⟨n, hn, rfl⟩ := hk
    simpa using jsToLower_toString_nat_ne_platforms n
  have hval : parsePostsJsonVal (mkShape5 items)
      = parseShapes345 (mkShape5 items) (keysOf (mkShape5 items)) := by
    unfold parsePostsJsonVal
    rw [if_neg (by simp [mkShape5, Json.isNull]),
        if_neg (by simp [mkShape5, getProp, strToIdx, truthyO])]
    show (match keysOf (mkShape5 items) |>.find?
            (fun k => jsToLower k = "platforms") with
          | some pk => _ | none => _) = _
    rw [hfind]
  show (match parsePostsJsonVal (mkShape5 items) with
        | .ok r => r | .error _ => none) = _
  rw [hval,
      show parseShapes345 (mkShape5 items) (keysOf (mkShape5 items))
        = (shape5build (items.map mkPost5) []).map some from
        parseShapes345_arr _ _ hnoarr,
      shape5build_items items hplat hne [],
      foldl_pushPost_nil]
  rfl

/-- Structure 1 wins over structure 3: an extra direct array-valued key is
ignored when a `platforms` array is present. -/
theorem parse_priority_1_over_3 (entries : List (String × List Json))
    (ek : String) (ps2 : List Json)
    (hekraw : ek ≠ "raw") (hekerr : ek ≠ "error")
    (hndl : (entries.map (fun e => jsToLower e.1)).Nodup) :
    parsePostsJson (some (Json.obj
        [("platforms", Json.arr (entries.map mkRec1)), (ek, Json.arr ps2)]))
      = some (canonOf entries) := by
  have hraw : getProp (Json.obj
      [("platforms", Json.arr (entries.map mkRec1)), (ek, Json.arr ps2)]) "raw" = none := by
    rw [getProp_obj_cons_ne _ _ _ _ (by decide),
        getProp_obj_cons_ne _ _ _ _ hekraw]
    rfl
  have herr : getProp (Json.obj
      [("platforms", Json.arr (entries.map mkRec1)), (ek, Json.arr ps2)]) "error" = none := by
    rw [getProp_obj_cons_ne _ _ _ _ (by decide),
        getProp_obj_cons_ne _ _ _ _ hekerr]
    rfl
  have hval : parsePostsJsonVal (Json.obj
      [("platforms", Json.arr (entries.map mkRec1)), (ek, Json.arr ps2)])
      = (shape1build (entries.map mkRec1) []).map some := by
    unfold parsePostsJsonVal
    rw [if_neg (by simp [Json.isNull]), hraw, herr]
    rw [if_neg (by simp [truthyO])]
    rw [show getProp (Json.obj
          [("platforms", Json.arr (entries.map mkRec1)), (ek, Json.arr ps2)]) "platforms"
        = some (Json.arr (entries.map mkRec1)) from getProp_obj_cons_self _ _ _]
  show (match parsePostsJsonVal (Json.obj
        [("platforms", Json.arr (entries.map mkRec1)), (ek, Json.arr ps2)]) with
        | .ok r => r | .error _ => none) = _
  rw [hval, shape1build_nodup entries hndl]
  rfl

/-- Structure 2 wins over structure 3: an extra direct array-valued key is
ignored when a case-insensitive `platforms` sub-map is present. -/
theorem parse_priority_2_over_3 (pk : String) (entries : List (String × List Json))
    (ek : String) (ps2 : List Json)
    (hpk : jsToLower pk = "platforms") (hek : jsToLower ek ≠ "platforms")
    (hekraw : ek ≠ "raw") (hekerr : ek ≠ "error")
    (hndl : (entries.map (fun e => jsToLower e.1)).Nodup) :
    parsePostsJson (some (Json.obj
        [(pk, Json.obj (mkMap entries)), (ek, Json.arr ps2)]))
      = some (canonOf entries) := by
  have hekp : ek ≠ "platforms" := by rintro rfl; exact hek (by decide)
  have hval : parsePostsJsonVal (Json.obj
      [(pk, Json.obj (mkMap entries)), (ek, Json.arr ps2)])
      = (normalizeKeys (Json.obj (mkMap entries))).map some := by
    unfold parsePostsJsonVal
    rw [getProp_obj_cons_ne _ _ _ _ (pk_ne_raw hpk),
        getProp_obj_cons_ne _ _ _ _ hekraw,
        getProp_obj_cons_ne _ _ _ _ (pk_ne_error hpk),
        getProp_obj_cons_ne _ _ _ _ hekerr]
    simp only [Json.isNull, getProp_obj, List.lookup, truthyO_none, Bool.false_eq_true,
      false_and, if_false]
    have hbe : ("platforms" == ek) = false := beq_eq_false_iff_ne.mpr (Ne.symm hekp)
    by_cases hc : pk = "platforms"
    · subst hc
      simp only [hbe]
      rfl
    · have hb : ("platforms" == pk) = false := beq_eq_false_iff_ne.mpr (Ne.symm hc)
      simp [hb, hbe, keysOf, List.find?, hpk]
      intro h
      exact absurd (h rfl) (by simp [Json.isArr])
  show (match parsePostsJsonVal (Json.obj
        [(pk, Json.obj (mkMap entries)), (ek, Json.arr ps2)]) with
        | .ok r => r | .error _ => none) = _
  rw [hval, normalizeKeys_mkMap entries hndl]
  rfl

/-- C1 (amended).  For each of the five recognized JSON shapes — given
canonically-built inputs whose platform keys are pairwise distinct after
lower-casing (the amendment: on a collision the later entry overwrites the
earlier one, see the counterexample) — `parsePostsJson` yields the
canonical map: keys are the lower-cased originals (or the lowercase default
`"general"`), in input order, and every post list is preserved intact and
in order.  Moreover the detectors fire in the fixed priority order, first
match wins: a `platforms` array (structure 1) or a case-insensitive
`platforms` sub-map (structure 2) takes precedence over direct array-valued
keys (structure 3). -/
theorem claim_C1 :
    (∀ entries : List (String × List Json),
        (entries.map (fun e => jsToLower e.1)).Nodup →
        parsePostsJson (some (mkShape1 entries)) = some (canonOf entries)) ∧
    (∀ (pk : String) (entries : List (String × List Json)),
        jsToLower pk = "platforms" →
        (entries.map (fun e => jsToLower e.1)).Nodup →
        parsePostsJson (some (mkShape2 pk entries)) = some (canonOf entries)) ∧
    (∀ entries : List (String × List Json),
        entries ≠ [] →
        (entries.map (fun e => jsToLower e.1)).Nodup →
        (∀ k ∈ entries.map Prod.fst, jsToLower k ≠ "platforms") →
        ¬("raw" ∈ entries.map Prod.fst ∧ "error" ∈ entries.map Prod.fst) →
        parsePostsJson (some (mkShape3 entries)) = some (canonOf entries)) ∧
    (∀ entries : List (String × List Json),
        (entries.map (fun e => jsToLower e.1)).Nodup →
        parsePostsJson (some (mkShape4 entries)) = some (canonOf entries)) ∧
    (∀ items : List (Option String × List (String × Json)),
        (∀ it ∈ items, it.1 = none → "platform" ∉ it.2.map Prod.fst) →
        (∀ it ∈ items, ∀ p, it.1 = some p → p ≠ "") →
        parsePostsJson (some (mkShape5 items)) = some (groupPairs (pairs5 items))) ∧
    (∀ (entries : List (String × List Json)) (ek : String) (ps2 : List Json),
        ek ≠ "raw" → ek ≠ "error" →
        (entries.map (fun e => jsToLower e.1)).Nodup →
        parsePostsJson (some (Json.obj
            [("platforms", Json.arr (entries.map mkRec1)), (ek, Json.arr ps2)]))
          = some (canonOf entries)) ∧
    (∀ (pk : String) (entries : List (String × List Json)) (ek : String) (ps2 : List Json),
        jsToLower pk = "platforms" → jsToLower ek ≠ "platforms" →
        ek ≠ "raw" → ek ≠ "error" →
        (entries.map (fun e => jsToLower e.1)).Nodup →
        parsePostsJson (some (Json.obj
            [(pk, Json.obj (mkMap entries)), (ek, Json.arr ps2)]))
          = some (canonOf entries)) :=
  ⟨parse_mkShape1, parse_mkShape2, parse_mkShape3, parse_mkShape4, parse_mkShape5,
   parse_priority_1_over_3, parse_priority_2_over_3⟩

/-- C1 counterexample.  The claim as stated promises that *every* original
post appears in the output for *every* input of a recognized shape.  For
the structure-1 input whose two record names `"X"` and `"x"` collide after
lower-casing, the second record overwrites the first: the post `"a"` of the
first record is absent from the result. -/
theorem claim_C1_cex :
    parsePostsJson (some (mkShape1 [("X", [Json.str "a"]), ("x", [Json.str "b"])]))
      = some [("x", Json.arr [Json.str "b"])] ∧
    Json.str "a" ∉ allPosts [("x", Json.arr [Json.str "b"])] := by
  refine ⟨rfl, ?_⟩
  intro h
  rw [show allPosts [("x", Json.arr [Json.str "b"])] = [Json.str "b"] from rfl] at h
  rw [List.mem_singleton] at h
  exact absurd (Json.str.inj h) (by decide)

/-- Closed instantiation of each conjunct of `claim_C1`. -/
theorem claim_C1_witness :
    parsePostsJson (some (mkShape1 [("X", [Json.str "p"]), ("LinkedIn", [])]))
      = some [("x", Json.arr [Json.str "p"]), ("linkedin", Json.arr [])] ∧
    parsePostsJson (some (mkShape2 "Platforms" [("X", [Json.str "a"])]))
      = some [("x", Json.arr [Json.str "a"])] ∧
    parsePostsJson (some (mkShape3 [("X", [Json.str "a"]), ("youtube", [])]))
      = some [("x", Json.arr [Json.str "a"]), ("youtube", Json.arr [])] ∧
    parsePostsJson (some (mkShape4 [("Instagram", [Json.str "i"])]))
      = some [("instagram", Json.arr [Json.str "i"])] ∧
    parsePostsJson (some (mkShape5 [(some "X", [("hook", Json.str "h")]), (none, [])]))
      = some [("x", Json.arr [mkPost5 (some "X", [("hook", Json.str "h")])]),
              ("general", Json.arr [mkPost5 (none, [])])] ∧
    parsePostsJson (some (Json.obj
        [("platforms", Json.arr ([("X", [Json.str "p"])].map mkRec1)),
         ("linkedin", Json.arr [Json.str "z"])]))
      = some [("x", Json.arr [Json.str "p"])] ∧
    parsePostsJson (some (Json.obj
        [("PLATFORMS", Json.obj (mkMap [("X", [Json.str "a"])])),
         ("linkedin", Json.arr [Json.str "z"])]))
      = some [("x", Json.arr [Json.str "a"])] :=
  ⟨(claim_C1.1 _ (by decide)).trans rfl,
   (claim_C1.2.1 "Platforms" _ (by decide) (by decide)).trans rfl,
   (claim_C1.2.2.1 _ (List.cons_ne_nil _ _) (by decide) (by decide) (by decide)).trans rfl,
   (claim_C1.2.2.2.1 _ (by decide)).trans rfl,
   (claim_C1.2.2.2.2.1 _ (by decide) (by decide)).trans rfl,
   (claim_C1.2.2.2.2.2.1 _ "linkedin" _ (by decide) (by decide) (by decide)).trans rfl,
   (claim_C1.2.2.2.2.2.2 "PLATFORMS" _ "linkedin" _ (by decide) (by decide)
      (by decide) (by decide) (by decide)).trans rfl⟩

/-- A truthy `{raw, error}` pair yields no document (checked before any
shape detector in the source). -/
theorem parse_rawError (j : Json)
    (h : truthyO (getProp j "raw") = true ∧ truthyO (getProp j "error") = true) :
    parsePostsJson (some j) = none := by
  show (match parsePostsJsonVal j with | .ok r => r | .error _ => none) = none
  unfold parsePostsJsonVal
  by_cases hn : j.isNull = true
  · rw [if_pos hn]
  · rw [if_neg hn, if_pos h]

/-- When none of the five shape detectors fires, the result is no document
(and no error escapes). -/
theorem parse_noShape (j : Json)
    (h1 : det1 j = false) (h2 : det2 j = false) (h3 : det3 j = false)
    (h4 : det4 j = false) (h5 : det5 j = false) :
    parsePostsJson (some j) = none := by
  show (match parsePostsJsonVal j with | .ok r => r | .error _ => none) = none
  unfold parsePostsJsonVal
  by_cases hn : j.isNull = true
  · rw [if_pos hn]
  · rw [if_neg hn]
    by_cases hre : truthyO (getProp j "raw") = true ∧ truthyO (getProp j "error") = true
    · rw [if_pos hre]
    · rw [if_neg hre]
      have hnotarr : ∀ es, getProp j "platforms" ≠ some (Json.arr es) := by
        intro es hes
        rw [det1, hes] at h1
        cases h1
      have hcont : (match (keysOf j).find? (fun k => jsToLower k = "platforms") with
          | some pk =>
              let v := (getProp j pk).getD Json.null
              if v.typeofObject ∧ ¬ v.isArr then (normalizeKeys v).map some
              else parseShapes345 j (keysOf j)
          | none => parseShapes345 j (keysOf j)) = parseShapes345 j (keysOf j) := by
        rcases hf : (keysOf j).find? (fun k => jsToLower k = "platforms") with _ | pk
        · rfl
        · show (if ((getProp j pk).getD Json.null).typeofObject
                  ∧ ¬ ((getProp j pk).getD Json.null).isArr then _ else _) = _
          rw [if_neg]
          rw [det2, hf] at h2
          exact of_decide_eq_false h2
      have h345 : parseShapes345 j (keysOf j) = .ok none := by
        unfold parseShapes345
        rw [det3] at h3
        rw [h3]
        simp only [Bool.false_eq_true, if_false]
        rw [if_neg]
        · rcases j with _ | b | n | str | es | fs
          · rfl
          · rfl
          · rfl
          · rfl
          · rw [det5] at h5; cases h5
          · rfl
        · rw [det4] at h4
          exact of_decide_eq_false h4
      rcases hp : getProp j "platforms" with _ | v
      · rw [hcont, h345]
      · rcases v with _ | b | n | str | es | fs
        · rw [hcont, h345]
        · rw [hcont, h345]
        · rw [hcont, h345]
        · rw [hcont, h345]
        · exact absurd hp (hnotarr es)
        · rw [hcont, h345]

/-- Structure-1 building throws (TypeError on the missing/non-string
`name`) as soon as any record lacks a string `name`. -/
theorem shape1build_error (recs : List Json)
    (hbad : ∃ p ∈ recs, p.isNull = true ∨ ∀ s, getProp p "name" ≠ some (Json.str s)) :
    ∀ acc, shape1build recs acc = .error () := by
  induction recs with
  | nil =>
      rcases hbad with ⟨p, hp, _⟩
      cases hp
  | cons r rest ih =>
      intro acc
      by_cases hn : r.isNull = true
      · show (if r.isNull = true then Except.error () else _) = _
        rw [if_pos hn]
      · show (if r.isNull = true then Except.error () else
            (match getProp r "name" with
             | some (Json.str n) =>
                 shape1build rest (assign acc (jsToLower n)
                   (match getProp r "posts" with
                    | some v => if v.truthy then v else Json.arr []
                    | none => Json.arr []))
             | _ => Except.error ())) = _
        rw [if_neg hn]
        rcases hname : getProp r "name" with _ | v
        · rfl
        · rcases v with _ | b | num | nstr | es | fs
          · rfl
          · rfl
          · rfl
          · -- name is a string: the bad record must be later
            have hbad' : ∃ p ∈ rest, p.isNull = true ∨
                ∀ s, getProp p "name" ≠ some (Json.str s) := by
              rcases hbad with ⟨p, hp, hb⟩
              rcases List.mem_cons.mp hp with rfl | hp'
              · rcases hb with hb | hb
                · exact absurd hb hn
                · exact absurd hname (hb nstr)
              · exact ⟨p, hp', hb⟩
            exact ih hbad' _
          · rfl
          · rfl

/-- C4 (amended).  `parsePostsJson` returns no document — never a raised
error — for malformed JSON (`JSON.parse` threw), for any parsed value with
a truthy `{raw, error}` pair, and for any parsed value matching none of the
five shape detectors.  Amendment: the `{raw, error}` escape hatch is
checked *first*, before any shape detector (see the counterexample), not
in the final Else step. -/
theorem claim_C4 :
    parsePostsJson none = none ∧
    (∀ j : Json,
        truthyO (getProp j "raw") = true ∧ truthyO (getProp j "error") = true →
        parsePostsJson (some j) = none) ∧
    (∀ j : Json, det1 j = false → det2 j = false → det3 j = false →
        det4 j = false → det5 j = false → parsePostsJson (some j) = none) :=
  ⟨rfl, parse_rawError, parse_noShape⟩

/-- C4 counterexample.  This value has truthy `raw` and `error` fields
*and* matches shape detector 1 (a `platforms` array); the claim as stated
says it must be normalized by structure 1 (to `some [("x", [])]`), but the
code consults the escape hatch before any detector and returns no
document. -/
theorem claim_C4_cex :
    det1 (Json.obj [("raw", Json.str "r"), ("error", Json.str "e"),
        ("platforms", Json.arr [mkRec1 ("X", [])])]) = true ∧
    parsePostsJson (some (Json.obj [("raw", Json.str "r"), ("error", Json.str "e"),
        ("platforms", Json.arr [mkRec1 ("X", [])])])) = none :=
  ⟨rfl, rfl⟩

/-- Closed instantiation of each conjunct of `claim_C4`. -/
theorem claim_C4_witness :
    parsePostsJson none = none ∧
    parsePostsJson (some (Json.obj [("raw", Json.str "r"), ("error", Json.str "e")]))
      = none ∧
    parsePostsJson (some (Json.obj [("note", Json.str "n")])) = none :=
  ⟨claim_C4.1, claim_C4.2.1 _ (by decide), claim_C4.2.2 _ rfl rfl rfl rfl rfl⟩

/-- C10.  `parsePostsJson` is total (it is a Lean function into `Option`)
and the `try/catch` absorbs every thrown TypeError: for any parsed object
whose `platforms` field is an array in which some record lacks a string
`name` (including `null` records), the exception thrown by
`platform.name.toLowerCase()` is caught and the result is no document —
not a partial document and not a raised error. -/
theorem claim_C10 (fs : List (String × Json)) (recs : List Json)
    (hpl : getProp (Json.obj fs) "platforms" = some (Json.arr recs))
    (hre : ¬(truthyO (getProp (Json.obj fs) "raw") = true ∧
             truthyO (getProp (Json.obj fs) "error") = true))
    (hbad : ∃ p ∈ recs, p.isNull = true ∨ ∀ s, getProp p "name" ≠ some (Json.str s)) :
    parsePostsJson (some (Json.obj fs)) = none := by
  show (match parsePostsJsonVal (Json.obj fs) with
        | .ok r => r | .error _ => none) = none
  unfold parsePostsJsonVal
  rw [if_neg (by simp [Json.isNull]), if_neg hre, hpl]
  show (match Except.map some (shape1build recs []) with
        | Except.ok r => r | Except.error _ => none) = none
  rw [shape1build_error recs hbad []]
  rfl

/-- Closed instantiation of `claim_C10`: a `platforms` array whose only
record has no `name` field at all. -/
theorem claim_C10_witness :
    parsePostsJson (some (Json.obj [("platforms",
        Json.arr [Json.obj [("posts", Json.arr [])]])])) = none :=
  claim_C10 _ _ rfl (by decide)
    ⟨Json.obj [("posts", Json.arr [])], List.mem_cons_self _ _,
     Or.inr (fun s h => Option.noConfusion h)⟩

/-- The error handler never writes the latch. -/
theorem onError_completedRef (s : ClientState) :
    (onError s).completedRef = s.completedRef := by
  rw [onError]
  split <;> rfl

/-- The artifact-fetch block never writes the latch. -/
theorem completedBranch_completedRef (fenv : FetchEnv) (s : ClientState) :
    (completedBranch fenv s).completedRef = s.completedRef := rfl

/-- One step sets the latch exactly when it was already set or the
delivered notification is terminal. -/
theorem stepEvent_completedRef (fenv : FetchEnv) (s : ClientState) (e : StreamEvent) :
    (stepEvent fenv s e).completedRef = true ↔
      (s.completedRef = true ∨ isTerminalEvent e = true) := by
  cases e with
  | doneEvt p => simp [stepEvent, isTerminalEvent]
  | errorEvt => simp [stepEvent, isTerminalEvent, onError_completedRef]
  | message m =>
      rcases m with ⟨raw, parsed⟩
      show (onMessage fenv s ⟨raw, parsed⟩).completedRef = true ↔ _
      rw [onMessage]
      rcases parsed with _ | d
      · simp [appendLog, isTerminalEvent]
      · by_cases hn : d.isNull
        · simp [hn, appendLog, isTerminalEvent]
        · simp only [hn, Bool.false_eq_true, if_false]
          rcases hst : getProp d "status" with _ | v
          · simp [hst, appendLog, isTerminalEvent, hn]
          · rcases v with _ | b | num | sv | es | fs
            · simp [hst, appendLog, isTerminalEvent, hn]
            · simp [hst, appendLog, isTerminalEvent, hn]
            · simp [hst, appendLog, isTerminalEvent, hn]
            · by_cases hc : sv = "completed"
              · subst hc
                simp [hst, appendLog, isTerminalEvent, hn,
                  completedBranch_completedRef]
              · by_cases hf : sv = "failed"
                · subst hf
                  simp [hst, appendLog, isTerminalEvent, hn]
                · have h1 : (Json.str sv) ≠ (Json.str "completed") := by
                    intro hh; exact hc (Json.str.inj hh)
                  have h2 : (Json.str sv) ≠ (Json.str "failed") := by
                    intro hh; exact hf (Json.str.inj hh)
                  simp [hst, appendLog, isTerminalEvent, hn, hc, hf]
            · simp [hst, appendLog, isTerminalEvent, hn]
            · simp [hst, appendLog, isTerminalEvent, hn]

/-- C3.  The completion latch starts false on each run, is set exactly by
the first terminal (completed/failed) inline-JSON signal and by nothing
else, later writes are no-ops (once true it stays true through every
step), and the transport-error handler surfaces a user-visible error
exactly when the latch is unset at delivery time. -/
theorem claim_C3 :
    (∀ s : ClientState, (runFlowInit s).completedRef = false) ∧
    (∀ (fenv : FetchEnv) (s : ClientState) (e : StreamEvent),
        (stepEvent fenv s e).completedRef = true ↔
          (s.completedRef = true ∨ isTerminalEvent e = true)) ∧
    (∀ (fenv : FetchEnv) (s : ClientState), s.completedRef = true →
        (stepEvent fenv s StreamEvent.errorEvt).error = s.error) ∧
    (∀ (fenv : FetchEnv) (s : ClientState), s.completedRef = false →
        (stepEvent fenv s StreamEvent.errorEvt).error = some connectionErrorMsg) ∧
    (∀ (fenv : FetchEnv) (s : ClientState) (evts : List StreamEvent),
        (processEvents fenv (runFlowInit s) evts).completedRef = true ↔
          ∃ e ∈ evts, isTerminalEvent e = true) := by
  have haux : ∀ (fenv : FetchEnv) (evts : List StreamEvent) (s : ClientState),
      (processEvents fenv s evts).completedRef = true ↔
        (s.completedRef = true ∨ ∃ e ∈ evts, isTerminalEvent e = true) := by
    intro fenv evts
    induction evts with
    | nil => intro s; simp [processEvents]
    | cons e evts ih =>
        intro s
        show (processEvents fenv (stepEvent fenv s e) evts).completedRef = true ↔ _
        rw [ih, stepEvent_completedRef]
        constructor
        · rintro ((h | h) | h)
          · exact Or.inl h
          · exact Or.inr ⟨e, by simp, h⟩
          · rcases h with ⟨e', he', ht⟩
            exact Or.inr ⟨e', by simp [he'], ht⟩
        · rintro (h | ⟨e', he', ht⟩)
          · exact Or.inl (Or.inl h)
          · rcases List.mem_cons.mp he' with rfl | he''
            · exact Or.inl (Or.inr ht)
            · exact Or.inr ⟨e', he'', ht⟩
  refine ⟨fun s => rfl, stepEvent_completedRef, ?_, ?_, ?_⟩
  · intro fenv s h
    show (onError s).error = s.error
    rw [onError]
    rw [if_pos h]
  · intro fenv s h
    show (onError s).error = some connectionErrorMsg
    rw [onError]
    rw [if_neg (by rw [h]; exact Bool.false_ne_true)]
  · intro fenv s evts
    rw [haux]
    simp [runFlowInit]

/-- Closed instantiation of the hypothesis-bearing conjuncts of `claim_C3`:
after a terminal signal the latch suppresses the transport-error message;
before one it is surfaced. -/
theorem claim_C3_witness :
    (stepEvent ⟨FetchOutcome.httpErr, FetchOutcome.httpErr⟩
        { initialState with completedRef := true } StreamEvent.errorEvt).error = none ∧
    (stepEvent ⟨FetchOutcome.httpErr, FetchOutcome.httpErr⟩
        initialState StreamEvent.errorEvt).error = some connectionErrorMsg ∧
    (stepEvent ⟨FetchOutcome.httpErr, FetchOutcome.httpErr⟩
        initialState (StreamEvent.message completedMsg)).completedRef = true ∧
    (runFlowInit { initialState with completedRef := true }).completedRef = false :=
  ⟨claim_C3.2.2.1 _ _ rfl,
   claim_C3.2.2.2.1 _ _ rfl,
   (claim_C3.2.1 _ _ _).mpr (Or.inr rfl),
   claim_C3.1 _⟩

/-- C2 (code bug).  The current client detects completion only through the
inline-JSON convention: a `data: {"status":"completed"}` payload triggers
the latch and the artifact fetches, while a named `event: done` frame —
the terminal convention of the repository's own local-process streaming
route — is not handled at all (no listener), so a local-mode stream ending
in `event: done` leaves the client to observe the subsequent transport
error and surface a spurious connection error with no artifacts fetched. -/
theorem claim_C2 : ∀ (fenv : FetchEnv) (s : ClientState),
    processEvents fenv (runFlowInit s) [StreamEvent.doneEvt "0"] = runFlowInit s ∧
    (processEvents fenv (runFlowInit s)
        [StreamEvent.doneEvt "0", StreamEvent.errorEvt]).error
      = some connectionErrorMsg ∧
    (processEvents fenv (runFlowInit s)
        [StreamEvent.doneEvt "0", StreamEvent.errorEvt]).messages = [] ∧
    (stepEvent fenv (runFlowInit s) (StreamEvent.message completedMsg)).messages
      = [ccMsgOf fenv.content, saMsgOf fenv.report] ∧
    (stepEvent fenv (runFlowInit s)
        (StreamEvent.message completedMsg)).completedRef = true :=
  fun fenv s => ⟨rfl, rfl, rfl, rfl, rfl⟩

/-- C6 (amended).  The completed branch fetches the two halves
independently: the message list is `[content half, report half]` with each
half a function of its own fetch outcome only; a failed half is rendered
as an empty message (absent content), the run error is never touched, and
only the `catch` branch (network error) logs a diagnostic line — a non-ok
HTTP status such as 404 yields the absent half silently. -/
theorem claim_C6 : ∀ (fenv : FetchEnv) (s : ClientState),
    completedBranch fenv s
      = { s with logs := s.logs ++ ccLogOf fenv.content ++ saLogOf fenv.report,
                 messages := [ccMsgOf fenv.content, saMsgOf fenv.report],
                 running := false } ∧
    (completedBranch fenv s).error = s.error ∧
    (ccMsgOf FetchOutcome.httpErr).content = "" ∧
    (ccMsgOf FetchOutcome.httpErr).parsedPosts = none ∧
    (saMsgOf FetchOutcome.httpErr).content = "" ∧
    (∀ m, ccLogOf (FetchOutcome.netErr m) = ["social_posts.json fetch failed: " ++ m]) ∧
    (∀ m, saLogOf (FetchOutcome.netErr m) = ["analytics_summary.md fetch failed: " ++ m]) ∧
    ccLogOf FetchOutcome.httpErr = [] ∧
    saLogOf FetchOutcome.httpErr = [] :=
  fun fenv s => ⟨rfl, rfl, rfl, rfl, rfl, fun m => rfl, fun m => rfl, rfl, rfl⟩

/-- C6 counterexample.  A 404 on the content artifact with a successful
report fetch: the content half is absent, the report half is displayed and
no fatal error is set — but, against the claim, *no* diagnostic line is
logged for the failed half. -/
theorem claim_C6_cex :
    (completedBranch ⟨FetchOutcome.httpErr, FetchOutcome.ok "## Report" none⟩
        (runFlowInit initialState)).logs = [] ∧
    (completedBranch ⟨FetchOutcome.httpErr, FetchOutcome.ok "## Report" none⟩
        (runFlowInit initialState)).messages
      = [⟨Agent.contentCreator, "", none⟩, ⟨Agent.socialAnalyst, "## Report", none⟩] ∧
    (completedBranch ⟨FetchOutcome.httpErr, FetchOutcome.ok "## Report" none⟩
        (runFlowInit initialState)).error = none :=
  ⟨rfl, rfl, rfl⟩

/-- The `done` event appears only as the sixth (last) frame. -/
theorem closeFrames_done_idx (code : Option Int) (dir : String) (ej em el : Bool) :
    ∀ i p, (closeFrames code dir ej em el)[i]? = some (Frame.event "done" p) → i = 5 := by
  intro i p h
  rcases Nat.lt_or_ge i 6 with hi | hi
  · interval_cases i <;> simp [closeFrames] at h <;> rfl
  · rw [List.getElem?_eq_none (by simpa [closeFrames] using hi)] at h
    cases h

/-- C5 (amended).  On process exit the close handler emits, in order: the
exit-code line, the CWD line, the three artifact/log existence
diagnostics, and *then* the `done` TerminalMarker — which carries the exit
code, or `-1` when the code is unavailable, and is the last frame (the
diagnostics precede it, not follow it). -/
theorem claim_C5 : ∀ (code : Option Int) (dir : String) (ej em el : Bool),
    closeFrames code dir ej em el
      = [Frame.data ("Process exited with code: " ++ toString (code.getD (-1))),
         Frame.data ("Backend CWD was: " ++ dir),
         Frame.data ("Check output: social_posts.json exists? " ++ jsBoolStr ej),
         Frame.data ("Check output: analytics_summary.md exists? " ++ jsBoolStr em),
         Frame.data ("Check log: run.log exists? " ++ jsBoolStr el),
         Frame.event "done" (toString (code.getD (-1)))] ∧
    (closeFrames code dir ej em el).getLast?
      = some (Frame.event "done" (toString (code.getD (-1)))) ∧
    (closeFrames none dir ej em el).getLast? = some (Frame.event "done" "-1") ∧
    (∀ i p, (closeFrames code dir ej em el)[i]? = some (Frame.event "done" p) → i = 5) :=
  fun code dir ej em el =>
    ⟨rfl, rfl, rfl, closeFrames_done_idx code dir ej em el⟩

/-- C5 counterexample.  In the concrete emission for exit code 0 with all
artifacts present, there is no occurrence of the `done` TerminalMarker
*before* the `social_posts.json` existence diagnostic: the marker does not
precede the diagnostics, it follows them. -/
theorem claim_C5_cex :
    ¬ ∃ (i j : Nat), i < j ∧
      (∃ p, (closeFrames (some 0) "backend" true true true)[i]?
          = some (Frame.event "done" p)) ∧
      (closeFrames (some 0) "backend" true true true)[j]?
          = some (Frame.data ("Check output: social_posts.json exists? "
              ++ jsBoolStr true)) := by
  rintro ⟨i, j, hij, ⟨p, hi⟩, hj⟩
  have h5 : i = 5 := closeFrames_done_idx (some 0) "backend" true true true i p hi
  subst h5
  have hj6 : 6 ≤ j := hij
  rw [List.getElem?_eq_none (by simpa [closeFrames] using hj6)] at hj
  cases hj

/-- Closed instantiation of the hypothesis-bearing conjunct of `claim_C5`. -/
theorem claim_C5_witness :
    closeFrames none "b" false false false
      = [Frame.data "Process exited with code: -1",
         Frame.data "Backend CWD was: b",
         Frame.data "Check output: social_posts.json exists? false",
         Frame.data "Check output: analytics_summary.md exists? false",
         Frame.data "Check log: run.log exists? false",
         Frame.event "done" "-1"] ∧ (5 : Nat) = 5 :=
  ⟨(claim_C5 none "b" false false false).1.trans rfl,
   (claim_C5 none "b" false false false).2.2.2 5 "-1" rfl⟩

/-- C8.  The pattern test runs before anything else: an invalid name is
rejected with 400 and neither the remote fetch nor the local read is
reachable for it — those actions occur only for names accepted by the
pattern (reject, never sanitize: the name reaching I/O is the input
name). -/
theorem claim_C8 : ∀ (name : String) (bu : Option String),
    (validName name = false → fileRouteAction name bu = FileAction.reject400) ∧
    (∀ base n, fileRouteAction name bu = FileAction.remoteFetch base n →
        validName name = true ∧ n = name) ∧
    (∀ n, fileRouteAction name bu = FileAction.localRead n →
        validName name = true ∧ n = name) := by
  intro name bu
  refine ⟨?_, ?_, ?_⟩
  · intro h
    unfold fileRouteAction
    rw [if_pos]
    rw [h]
    exact Bool.false_ne_true
  · intro base n h
    by_cases hv : validName name = true
    · unfold fileRouteAction at h
      rw [if_neg (by simp [hv])] at h
      rcases bu with _ | b
      · cases h
      · exact ⟨hv, (FileAction.remoteFetch.inj h).2.symm⟩
    · unfold fileRouteAction at h
      rw [if_pos (by simpa using hv)] at h
      cases h
  · intro n h
    by_cases hv : validName name = true
    · unfold fileRouteAction at h
      rw [if_neg (by simp [hv])] at h
      rcases bu with _ | b
      · exact ⟨hv, (FileAction.localRead.inj h).symm⟩
      · cases h
    · unfold fileRouteAction at h
      rw [if_pos (by simpa using hv)] at h
      cases h

/-- Closed instantiation of `claim_C8`: a path-traversal name is rejected
before any I/O; a plain artifact name reaches the local read unchanged. -/
theorem claim_C8_witness :
    validName "../secret.txt" = false ∧
    fileRouteAction "../secret.txt" none = FileAction.reject400 ∧
    validName "social_posts.json" = true ∧
    validName "analytics_summary.md" = true ∧
    validName "social_posts" = false ∧
    fileRouteAction "social_posts.json" none = FileAction.localRead "social_posts.json" :=
  ⟨by decide, (claim_C8 "../secret.txt" none).1 (by decide), by decide, by decide,
   by decide, rfl⟩

/-- Splitting the whitespace-joined tokens on whitespace and dropping
empties recovers the tokens. -/
theorem splitOnP_joinWs (ts : List String)
    (h : ∀ t ∈ ts, t.data ≠ [] ∧ ∀ c ∈ t.data, isEnvWs c = false) :
    ((joinWs ts).splitOnP isEnvWs).filter (· ≠ []) = ts.map String.data := by
  induction ts with
  | nil => rfl
  | cons t rest ih =>
      rcases rest with _ | ⟨t2, rest⟩
      · show ((t.data).splitOnP isEnvWs).filter (· ≠ []) = [t.data]
        rw [List.splitOnP_eq_single isEnvWs t.data
              (by intro x hx
                  simp only [Bool.not_eq_true]
                  exact (h t (by simp)).2 x hx)]
        simp [(h t (by simp)).1]
      · show (((t.data ++ ' ' :: joinWs (t2 :: rest)).splitOnP isEnvWs).filter (· ≠ []))
            = t.data :: (t2 :: rest).map String.data
        rw [List.splitOnP_first isEnvWs t.data
              (by intro x hx
                  simp only [Bool.not_eq_true]
                  exact (h t (by simp)).2 x hx)
              ' ' (by decide) (joinWs (t2 :: rest))]
        rw [List.filter_cons_of_pos (by simpa using (h t (by simp)).1)]
        rw [ih (fun t' ht' => h t' (by simp [ht']))]

/-- C9.  For a nonempty sequence of genuine hashtag tokens (nonempty,
whitespace-free), the single whitespace-joined string form and the
pre-split array form render to exactly the same token sequence, whatever
the `tags` synonym field holds. -/
theorem claim_C9 (ts : List String) (tags : Option Json)
    (hne : ts ≠ [])
    (htok : ∀ t ∈ ts, t.data ≠ [] ∧ ∀ c ∈ t.data, isEnvWs c = false) :
    hashtagsOf (some (Json.str ⟨joinWs ts⟩)) tags = ts ∧
    hashtagsOf (some (Json.arr (ts.map Json.str))) tags = ts := by
  constructor
  · have hjoin_ne : joinWs ts ≠ [] := by
      rcases ts with _ | ⟨t, rest⟩
      · exact absurd rfl hne
      · rcases rest with _ | ⟨t2, rest⟩
        · exact (htok t (by simp)).1
        · show t.data ++ ' ' :: joinWs (t2 :: rest) ≠ []
          simp
    have htr : truthyO (some (Json.str ⟨joinWs ts⟩)) = true := by
      show ((⟨joinWs ts⟩ : String) != "") = true
      simp only [bne_iff_ne, ne_eq]
      intro hh
      exact hjoin_ne (congrArg String.data hh)
    rw [hashtagsOf, htr]
    show jsSplitWs ⟨joinWs ts⟩ = ts
    rw [jsSplitWs]
    rw [show (⟨joinWs ts⟩ : String).data = joinWs ts from rfl]
    rw [splitOnP_joinWs ts htok]
    rw [List.map_map]
    have hid : List.map ((fun cs => (⟨cs⟩ : String)) ∘ String.data) ts
        = List.map id ts := List.map_congr_left (fun t _ => rfl)
    rw [hid, List.map_id]
  · rw [hashtagsOf]
    show (ts.map Json.str).map jsString = ts
    rw [List.map_map]
    have hid : List.map (jsString ∘ Json.str) ts = List.map id ts :=
      List.map_congr_left (fun t _ => by simp [Function.comp_apply, jsString, id])
    rw [hid, List.map_id]

/-- Closed instantiation of `claim_C9`. -/
theorem claim_C9_witness :
    hashtagsOf (some (Json.str "AI tools")) none = ["AI", "tools"] ∧
    hashtagsOf (some (Json.arr [Json.str "AI", Json.str "tools"])) none
      = ["AI", "tools"] := by
  have h := claim_C9 ["AI", "tools"] none (by simp) (by decide)
  exact ⟨h.1, h.2⟩

/-- A key-start character is not whitespace. -/
theorem identStart_not_ws {c : Char} (h : isIdentStart c = true) : isEnvWs c = false := by
  cases hE : isEnvWs c
  · rfl
  · rw [isEnvWs] at hE
    rcases of_decide_eq_true hE with rfl | rfl | rfl | rfl | rfl | rfl <;>
      exact absurd h (by decide)

/-- A `dropWhile` passes over a prefix that satisfies the predicate. -/
theorem dropWhile_append_all {p : Char → Bool} (l r : List Char)
    (h : ∀ c ∈ l, p c = true) : (l ++ r).dropWhile p = r.dropWhile p := by
  induction l with
  | nil => rfl
  | cons c l ih =>
      rw [List.cons_append, List.dropWhile_cons_of_pos (h c (by simp))]
      exact ih (fun c' hc' => h c' (by simp [hc']))

/-- A `takeWhile` keeps a prefix that satisfies the predicate. -/
theorem takeWhile_append_all {p : Char → Bool} (l r : List Char)
    (h : ∀ c ∈ l, p c = true) : (l ++ r).takeWhile p = l ++ r.takeWhile p := by
  induction l with
  | nil => rfl
  | cons c l ih =>
      rw [List.cons_append, List.takeWhile_cons_of_pos (h c (by simp))]
      rw [ih (fun c' hc' => h c' (by simp [hc']))]
      rfl

/-- The pattern accepts `K=<value>` with `K` an identifier, capturing the
whole remainder as the value (after the whitespace following `=`). -/
theorem matchEnvLine_canon (c : Char) (ks v : List Char)
    (hc : isIdentStart c = true)
    (hks : ∀ x ∈ ks, isIdentChar x = true)
    (hv : v.dropWhile isEnvWs = v) :
    matchEnvLine (c :: ks ++ '=' :: v) = some (⟨c :: ks⟩, v) := by
  rw [matchEnvLine]
  have h1 : (c :: ks ++ '=' :: v).dropWhile isEnvWs = c :: (ks ++ '=' :: v) :=
    List.dropWhile_cons_of_neg (by rw [identStart_not_ws hc]; exact Bool.false_ne_true)
  simp only [h1]
  rw [if_pos hc]
  have h2 : (ks ++ '=' :: v).dropWhile isIdentChar = '=' :: v := by
    rw [dropWhile_append_all _ _ hks]
    exact List.dropWhile_cons_of_neg (by decide)
  have h3 : ('=' :: v).dropWhile isEnvWs = '=' :: v :=
    List.dropWhile_cons_of_neg (by decide)
  rw [h2, h3]
  have h4 : (ks ++ '=' :: v).takeWhile isIdentChar = ks := by
    rw [takeWhile_append_all _ _ hks,
        List.takeWhile_cons_of_neg (by decide), List.append_nil]
  show some ((⟨c :: (ks ++ '=' :: v).takeWhile isIdentChar⟩ : String),
      v.dropWhile isEnvWs) = _
  rw [h4, hv]

/-- Surrounding double quotes are stripped. -/
theorem stripQuotesL_dquote (v : List Char) :
    stripQuotesL ('"' :: (v ++ ['"'])) = v := by
  rw [stripQuotesL, if_pos]
  · rw [List.drop_one, List.tail_cons, List.dropLast_concat]
  · left
    constructor
    · rfl
    · rw [show ('"' :: (v ++ ['"'])) = ('"' :: v) ++ ['"'] from rfl,
          List.getLast?_concat]

/-- Surrounding single quotes are stripped. -/
theorem stripQuotesL_squote (v : List Char) :
    stripQuotesL ('\'' :: (v ++ ['\''])) = v := by
  rw [stripQuotesL, if_pos]
  · rw [List.drop_one, List.tail_cons, List.dropLast_concat]
  · right
    constructor
    · rfl
    · rw [show ('\'' :: (v ++ ['\''])) = ('\'' :: v) ++ ['\''] from rfl,
          List.getLast?_concat]

/-- A line with no `=` never matches the pattern. -/
theorem matchEnvLine_no_eq (line : List Char) (h : '=' ∉ line) :
    matchEnvLine line = none := by
  rw [matchEnvLine]
  rcases hd : line.dropWhile isEnvWs with _ | ⟨c, rest⟩
  · rfl
  · have hrest : List.Sublist rest line := by
      have h1 : List.Sublist (line.dropWhile isEnvWs) line := List.dropWhile_sublist _
      rw [hd] at h1
      exact (List.sublist_cons_self c rest).trans h1
    show (if isIdentStart c = true then
            (match (rest.dropWhile isIdentChar).dropWhile isEnvWs with
             | '=' :: rest4 => some ((⟨c :: rest.takeWhile isIdentChar⟩ : String),
                 rest4.dropWhile isEnvWs)
             | _ => none)
          else none) = none
    by_cases hc : isIdentStart c = true
    · rw [if_pos hc]
      rcases h4 : ((rest.dropWhile isIdentChar).dropWhile isEnvWs) with _ | ⟨c4, r4⟩
      · rfl
      · have hc4 : c4 ∈ line := by
          have hs1 : List.Sublist (rest.dropWhile isIdentChar) rest :=
            List.dropWhile_sublist _
          have hs2 : List.Sublist ((rest.dropWhile isIdentChar).dropWhile isEnvWs)
              (rest.dropWhile isIdentChar) := List.dropWhile_sublist _
          exact (hs2.trans (hs1.trans hrest)).subset (by rw [h4]; simp)
        have hc4ne : c4 ≠ '=' := by
          rintro rfl
          exact h hc4
        split
        · next rest4 heq =>
            injection heq with hh _
            exact absurd hh hc4ne
        · rfl
    · rw [if_neg hc]

/-- A line with no `=` is rejected. -/
theorem parseEnvLine_no_eq (line : List Char) (h : '=' ∉ line) :
    parseEnvLine line = none := by
  rw [parseEnvLine, matchEnvLine_no_eq line h]

/-- Generic first-entry lookup hit. -/
theorem lookup_cons_self2 {β : Type} (k : String) (v : β) (rest : List (String × β)) :
    ((k, v) :: rest).lookup k = some v := by
  simp [List.lookup]

/-- Generic lookup skip for a different key. -/
theorem lookup_cons_ne2 {β : Type} (k a : String) (v : β) (rest : List (String × β))
    (h : k ≠ a) : ((k, v) :: rest).lookup a = rest.lookup a := by
  have hb : (a == k) = false := beq_eq_false_iff_ne.mpr (fun hh => h hh.symm)
  simp [List.lookup, hb]

/-- The JS assignment stores the new value under its key. -/
theorem lookupEnv_envSet_self (env : List (String × String)) (k v : String) :
    lookupEnv (envSet env k v) k = some v := by
  induction env with
  | nil => exact lookup_cons_self2 k v []
  | cons e rest ih =>
      rcases e with ⟨k1, v1⟩
      show lookupEnv
        (if k1 = k then (k1, v) :: rest else (k1, v1) :: envSet rest k v) k = some v
      by_cases h : k1 = k
      · rw [if_pos h]
        subst h
        exact lookup_cons_self2 k1 v rest
      · rw [if_neg h]
        show ((k1, v1) :: envSet rest k v).lookup k = some v
        rw [lookup_cons_ne2 k1 k v1 _ h]
        exact ih

/-- The JS assignment leaves every other key untouched. -/
theorem lookupEnv_envSet_ne (env : List (String × String)) (k v k' : String)
    (h : k' ≠ k) : lookupEnv (envSet env k v) k' = lookupEnv env k' := by
  induction env with
  | nil =>
      show ([(k, v)] : List (String × String)).lookup k' = List.lookup k' []
      rw [lookup_cons_ne2 k k' v [] (fun hh => h hh.symm)]
  | cons e rest ih =>
      rcases e with ⟨k1, v1⟩
      show lookupEnv
        (if k1 = k then (k1, v) :: rest else (k1, v1) :: envSet rest k v) k' = _
      by_cases hk : k1 = k
      · rw [if_pos hk]
        subst hk
        show ((k1, v) :: rest).lookup k' = ((k1, v1) :: rest).lookup k'
        rw [lookup_cons_ne2 _ _ _ _ (fun hh => h hh.symm),
            lookup_cons_ne2 _ _ _ _ (fun hh => h hh.symm)]
      · rw [if_neg hk]
        show ((k1, v1) :: envSet rest k v).lookup k' = ((k1, v1) :: rest).lookup k'
        by_cases h1 : k1 = k'
        · subst h1
          rw [lookup_cons_self2, lookup_cons_self2]
        · rw [lookup_cons_ne2 _ _ _ _ h1, lookup_cons_ne2 _ _ _ _ h1]
          exact ih

/-- A rejected line leaves the environment unchanged. -/
theorem applyEnvLine_skip (env : List (String × String)) (line : List Char)
    (h : parseEnvLine line = none) : applyEnvLine env line = env := by
  rw [applyEnvLine, h]

/-- An unquoted value is stored verbatim. -/
theorem parseEnvLine_unquoted (c : Char) (ks v : List Char)
    (hc : isIdentStart c = true)
    (hks : ∀ x ∈ ks, isIdentChar x = true)
    (hv : v.dropWhile isEnvWs = v)
    (hq : ¬((v.head? = some '"' ∧ v.getLast? = some '"') ∨
           (v.head? = some '\'' ∧ v.getLast? = some '\''))) :
    parseEnvLine (c :: ks ++ '=' :: v) = some (⟨c :: ks⟩, ⟨v⟩) := by
  rw [parseEnvLine, matchEnvLine_canon c ks v hc hks hv]
  show some ((⟨c :: ks⟩ : String), (⟨stripQuotesL v⟩ : String)) = _
  rw [stripQuotesL, if_neg hq]

/-- A double-quoted value is stored with the quotes stripped. -/
theorem parseEnvLine_dquoted (c : Char) (ks v : List Char)
    (hc : isIdentStart c = true)
    (hks : ∀ x ∈ ks, isIdentChar x = true) :
    parseEnvLine (c :: ks ++ '=' :: '"' :: (v ++ ['"'])) = some (⟨c :: ks⟩, ⟨v⟩) := by
  have hv : ('"' :: (v ++ ['"'])).dropWhile isEnvWs = '"' :: (v ++ ['"']) :=
    List.dropWhile_cons_of_neg (by decide)
  rw [parseEnvLine, matchEnvLine_canon c ks _ hc hks hv]
  show some ((⟨c :: ks⟩ : String), (⟨stripQuotesL ('"' :: (v ++ ['"']))⟩ : String)) = _
  rw [stripQuotesL_dquote]

/-- A single-quoted value is stored with the quotes stripped. -/
theorem parseEnvLine_squoted (c : Char) (ks v : List Char)
    (hc : isIdentStart c = true)
    (hks : ∀ x ∈ ks, isIdentChar x = true) :
    parseEnvLine (c :: ks ++ '=' :: '\'' :: (v ++ ['\''])) = some (⟨c :: ks⟩, ⟨v⟩) := by
  have hv : ('\'' :: (v ++ ['\''])).dropWhile isEnvWs = '\'' :: (v ++ ['\'']) :=
    List.dropWhile_cons_of_neg (by decide)
  rw [parseEnvLine, matchEnvLine_canon c ks _ hc hks hv]
  show some ((⟨c :: ks⟩ : String), (⟨stripQuotesL ('\'' :: (v ++ ['\'']))⟩ : String)) = _
  rw [stripQuotesL_squote]

/-- Merging a one-line source applies that line's assignment. -/
theorem mergeDotenv_single (base : List (String × String)) (line : List Char)
    (k v : String)
    (hnl : '\n' ∉ line) (hcr : line.getLast? ≠ some '\r')
    (hp : parseEnvLine line = some (k, v)) :
    mergeDotenv base (some line) = envSet base k v := by
  have hsplit : splitLines line = [line] := by
    rw [splitLines, List.splitOnP_eq_single (fun x => decide (x = '\n')) line
          (by intro x hx hxe
              exact hnl ((of_decide_eq_true hxe) ▸ hx))]
    simp [hcr]
  show (splitLines line).foldl applyEnvLine base = _
  rw [hsplit]
  show applyEnvLine base line = _
  rw [applyEnvLine, hp]

/-- C7.  The `.env` merge never fails: an absent or unreadable source
leaves the base environment unchanged; a line `K="v"`, `K='v'` and `K=v`
(identifier key, value without surrounding-quote ambiguity or leading
whitespace) all store the identical value `v`; a line with no `=` (more
generally, any line the pattern rejects) is skipped without affecting
previously stored keys; stored entries override the base entry of the same
key and leave every other key untouched. -/
theorem claim_C7 :
    (∀ base : List (String × String), mergeDotenv base none = base) ∧
    (∀ (c : Char) (ks v : List Char),
        isIdentStart c = true →
        (∀ x ∈ ks, isIdentChar x = true) →
        v.dropWhile isEnvWs = v →
        ¬((v.head? = some '"' ∧ v.getLast? = some '"') ∨
          (v.head? = some '\'' ∧ v.getLast? = some '\'')) →
        parseEnvLine (c :: ks ++ '=' :: v) = some (⟨c :: ks⟩, ⟨v⟩) ∧
        parseEnvLine (c :: ks ++ '=' :: '"' :: (v ++ ['"'])) = some (⟨c :: ks⟩, ⟨v⟩) ∧
        parseEnvLine (c :: ks ++ '=' :: '\'' :: (v ++ ['\''])) = some (⟨c :: ks⟩, ⟨v⟩)) ∧
    (∀ (env : List (String × String)) (line : List Char),
        parseEnvLine line = none → applyEnvLine env line = env) ∧
    (∀ line : List Char, '=' ∉ line → parseEnvLine line = none) ∧
    (∀ (env : List (String × String)) (k v : String),
        lookupEnv (envSet env k v) k = some v) ∧
    (∀ (env : List (String × String)) (k v k' : String), k' ≠ k →
        lookupEnv (envSet env k v) k' = lookupEnv env k') ∧
    (∀ (base : List (String × String)) (line : List Char) (k v : String),
        '\n' ∉ line → line.getLast? ≠ some '\r' →
        parseEnvLine line = some (k, v) →
        lookupEnv (mergeDotenv base (some line)) k = some v) :=
  ⟨fun _ => rfl,
   fun c ks v hc hks hv hq =>
     ⟨parseEnvLine_unquoted c ks v hc hks hv hq,
      parseEnvLine_dquoted c ks v hc hks,
      parseEnvLine_squoted c ks v hc hks⟩,
   applyEnvLine_skip,
   parseEnvLine_no_eq,
   lookupEnv_envSet_self,
   lookupEnv_envSet_ne,
   fun base line k v hnl hcr hp => by
     rw [mergeDotenv_single base line k v hnl hcr hp]
     exact lookupEnv_envSet_self base k v⟩

/-- Closed instantiation of `claim_C7`: `KEY="value"`, `KEY='value'` and
`KEY=value` all store `value`; a line with no `=` is skipped; the merged
entry overrides the base and other base entries survive. -/
theorem claim_C7_witness :
    parseEnvLine ("KEY=value".data) = some ("KEY", "value") ∧
    parseEnvLine ("KEY=\"value\"".data) = some ("KEY", "value") ∧
    parseEnvLine ("KEY='value'".data) = some ("KEY", "value") ∧
    parseEnvLine ("just a comment".data) = none ∧
    applyEnvLine [("KEY", "old")] ("just a comment".data) = [("KEY", "old")] ∧
    mergeDotenv [("KEY", "old")] none = [("KEY", "old")] ∧
    lookupEnv (mergeDotenv [("KEY", "old"), ("PATH", "p")]
        (some ("KEY=\"new\"".data))) "KEY" = some "new" ∧
    lookupEnv (mergeDotenv [("KEY", "old"), ("PATH", "p")]
        (some ("KEY=\"new\"".data))) "PATH" = some "p" := by
  have h2 := (claim_C7.2.1 'K' ['E', 'Y'] ("value".data)
    (by decide) (by decide) (by decide) (by decide))
  refine ⟨h2.1, h2.2.1, h2.2.2, ?_, ?_, claim_C7.1 _, ?_, ?_⟩
  · exact claim_C7.2.2.2.1 _ (by decide)
  · exact claim_C7.2.2.1 _ _ (claim_C7.2.2.2.1 _ (by decide))
  · exact claim_C7.2.2.2.2.2.2 [("KEY", "old"), ("PATH", "p")]
      ("KEY=\"new\"".data) "KEY" "new" (by decide) (by decide)
      ((claim_C7.2.1 'K' ['E', 'Y'] ("new".data)
          (by decide) (by decide) (by decide) (by decide)).2.1)
  · rfl

end SocialCrew
